import Mathlib

/-!
Shallow embedding of the `astrbot_plugin_cook` core (search service, LRU/TTL
cache layer, recipe service orchestration) and proofs about it.

Python strings are modelled as lists of Unicode code points (`List Nat`);
Python dicts (which preserve insertion order) as association lists with
update-in-place/append-at-end semantics; Python sets of names as duplicate-free
lists in insertion order.  `random.shuffle` and `random.sample` are modelled as
explicit function parameters, constrained in theorem hypotheses (permutation /
sampling without replacement), since only their non-probabilistic behaviour is
specified.
-/

set_option autoImplicit false

namespace Cook

/-- Python strings as lists of Unicode code points. -/
abbrev PyStr := List Nat

/-- Embed a Lean string literal as a `PyStr`. -/
def str (s : String) : PyStr := s.data.map Char.toNat

/-- Decimal rendering of a number, as in Python f-string interpolation. -/
def natStr (n : Nat) : PyStr := str (Nat.repr n)

/-- The whitespace code points stripped by Python `str.strip()` (ASCII range). -/
def isPySpace (c : Nat) : Bool :=
  c = 32 || c = 9 || c = 10 || c = 13 || c = 11 || c = 12

/-- Python `s.strip()`: remove leading and trailing whitespace. -/
def pyStrip (s : PyStr) : PyStr :=
  ((s.dropWhile isPySpace).reverse.dropWhile isPySpace).reverse

/-- Python `str.lower()` on one code point (ASCII letters; other code points,
in particular CJK, are unchanged). -/
def pyCharLower (c : Nat) : Nat := if 65 ≤ c ∧ c ≤ 90 then c + 32 else c

/-- Python `s.lower()`. -/
def pyLower (s : PyStr) : PyStr := s.map pyCharLower

/-- Python `s.startswith(sub)`. -/
def pyStartsWith (s sub : PyStr) : Bool := decide (s.take sub.length = sub)

/-- Python `sub in s` (contiguous substring test). -/
def pyContains : PyStr → PyStr → Bool
  | [], sub => decide (sub = [])
  | c :: rest, sub => pyStartsWith (c :: rest) sub || pyContains rest sub

/-- Python `s.index(sub)`: position of the first occurrence (callers guard
with `sub in s`, so the value on absent substrings is irrelevant). -/
def pyIndexOf : PyStr → PyStr → Nat
  | [], _ => 0
  | c :: rest, sub => if pyStartsWith (c :: rest) sub then 0 else pyIndexOf rest sub + 1

/-- A Python dict with string keys, in insertion order. -/
abbrev Dict (α : Type) := List (PyStr × α)

/-- Python `d.get(k)` / `d[k]`. -/
def dictGet {α : Type} : Dict α → PyStr → Option α
  | [], _ => none
  | (k', v) :: rest, k => if k' = k then some v else dictGet rest k

/-- Python `d[k] = v`: update in place if the key exists, else append. -/
def dictSet {α : Type} : Dict α → PyStr → α → Dict α
  | [], k, v => [(k, v)]
  | (k', v') :: rest, k, v =>
    if k' = k then (k', v) :: rest else (k', v') :: dictSet rest k v

/-- Python `del d[k]` (no-op when the key is absent). -/
def dictPop {α : Type} : Dict α → PyStr → Dict α
  | [], _ => []
  | (k', v') :: rest, k => if k' = k then rest else (k', v') :: dictPop rest k

/-- The keys of a dict, in order. -/
def dictKeys {α : Type} (d : Dict α) : List PyStr := d.map Prod.fst

/-- One recipe record (`models/recipe.py`, class `Recipe`). -/
structure Recipe where
  name : PyStr
  category : PyStr
  category_zh : PyStr
  url : PyStr
deriving DecidableEq, Repr

/-- The configuration fields the core reads (`config/settings.py`), with the
defaults from `config/constants.py`. -/
structure RecipeConfig where
  cache_ttl : Nat := 3600
  search_cache_size : Nat := 100
  random_pool_size : Nat := 50
  max_search_results : Nat := 10
  max_random_results : Nat := 10
  max_category_display : Nat := 20
  min_random_count : Nat := 1
  max_random_count : Nat := 10
deriving DecidableEq, Repr

/-- Search result model (`models/recipe.py`, class `SearchResult`). -/
structure SearchResult where
  recipes : List Recipe
  total_count : Nat
  has_more : Bool
  query : PyStr
deriving DecidableEq, Repr

/-- State of `RecipeSearchService` (`services/search_service.py`). -/
structure RecipeSearchService where
  config : RecipeConfig
  recipes : Dict Recipe
  name_index : Dict Recipe
  category_index : Dict (List Recipe)
  keyword_index : Dict (List PyStr)
  random_pool : Dict (List Recipe)
  all_recipes_list : List Recipe
deriving DecidableEq, Repr

/-- `defaultdict(list)`-style `d[k].append(x)`. -/
def dictAppend {α : Type} (d : Dict (List α)) (k : PyStr) (x : α) : Dict (List α) :=
  match dictGet d k with
  | some l => dictSet d k (l ++ [x])
  | none => d ++ [(k, [x])]

/-- `defaultdict(set)`-style `d[k].add(x)` (sets modelled as dedup lists). -/
def dictSetAdd (d : Dict (List PyStr)) (k : PyStr) (x : PyStr) : Dict (List PyStr) :=
  match dictGet d k with
  | some s => if x ∈ s then d else dictSet d k (s ++ [x])
  | none => d ++ [(k, [x])]

/-- One step of the single-character loop of `_build_keyword_index`:
register the dish name under a non-whitespace character. -/
def addKeywordChar (name : PyStr) (acc : Dict (List PyStr)) (c : Nat) : Dict (List PyStr) :=
  if pyStrip [c] = [] then acc else dictSetAdd acc [c] name

/-- One step of the 2- and 3-gram loop of `_build_keyword_index`: register
the dish name under `name_lower[i : i+len]` when the window fits and the gram
is not blank. -/
def addKeywordGramAt (nm name : PyStr) (acc : Dict (List PyStr)) (i len : Nat) :
    Dict (List PyStr) :=
  if i + len ≤ nm.length then
    (if pyStrip ((nm.drop i).take len) = [] then acc
     else dictSetAdd acc ((nm.drop i).take len) name)
  else acc

/-- `RecipeSearchService._build_keyword_index`: register the dish name under
every non-whitespace character and every non-blank 2- and 3-gram of the
lowercased name. -/
def addRecipeKeywords (d : Dict (List PyStr)) (r : Recipe) : Dict (List PyStr) :=
  let nm := pyLower r.name
  let d1 := nm.foldl (addKeywordChar r.name) d
  (List.range nm.length).foldl (fun acc i =>
    [2, 3].foldl (fun acc2 len => addKeywordGramAt nm r.name acc2 i len) acc) d1

/-- The name set registered under key `k` contains `n`. -/
def keyRegistered (d : Dict (List PyStr)) (k n : PyStr) : Prop :=
  ∃ s, dictGet d k = some s ∧ n ∈ s

/-- The per-record body of the index-building loop in
`RecipeSearchService._build_indexes`. -/
def processRecipe (svc : RecipeSearchService) (r : Recipe) : RecipeSearchService :=
  { svc with
    name_index := dictSet (dictSet svc.name_index r.name r) (pyLower r.name) r
    category_index := dictAppend svc.category_index r.category_zh r
    keyword_index := addRecipeKeywords svc.keyword_index r
    all_recipes_list := svc.all_recipes_list ++ [r] }

/-- `RecipeSearchService._build_random_pools`, with `random.shuffle` passed in
as a function parameter. -/
def buildRandomPools (shuffle : List Recipe → List Recipe)
    (svc : RecipeSearchService) : RecipeSearchService :=
  let p1 := svc.category_index.foldl
    (fun p kv => if kv.2 = [] then p else dictSet p kv.1 (shuffle kv.2)) svc.random_pool
  let p2 := if svc.all_recipes_list = [] then p1 else dictSet p1 [] (shuffle svc.all_recipes_list)
  { svc with random_pool := p2 }

/-- The whole-record step of the build loop, as a named function of the
`(key, value)` pairs the loop iterates over. -/
def buildStep (acc : RecipeSearchService) (kv : PyStr × Recipe) : RecipeSearchService :=
  processRecipe acc kv.2

/-- `RecipeSearchService._build_indexes`: on empty record data the rebuild is
skipped entirely (early return before the clearing step); otherwise all
indices are cleared and rebuilt from `recipes.values()`. -/
def buildIndexes (shuffle : List Recipe → List Recipe)
    (svc : RecipeSearchService) : RecipeSearchService :=
  if svc.recipes = [] then svc
  else
    let cleared := { svc with name_index := [], category_index := [], keyword_index := [],
                              random_pool := [], all_recipes_list := [] }
    buildRandomPools shuffle (svc.recipes.foldl (fun acc kv => processRecipe acc kv.2) cleared)

/-- `RecipeSearchService.__init__`: store the record dict and build indices. -/
def mkSearchService (recipes : Dict Recipe) (config : RecipeConfig)
    (shuffle : List Recipe → List Recipe) : RecipeSearchService :=
  buildIndexes shuffle
    { config := config, recipes := recipes, name_index := [], category_index := [],
      keyword_index := [], random_pool := [], all_recipes_list := [] }

/-- `RecipeSearchService.update_recipes`: replace the record dict and rebuild. -/
def update_recipes (shuffle : List Recipe → List Recipe)
    (svc : RecipeSearchService) (recipes : Dict Recipe) : RecipeSearchService :=
  buildIndexes shuffle { svc with recipes := recipes }

/-- `RecipeSearchService.find_by_name`: blank names short-circuit to `None`;
otherwise exact lookup, then lowercase-fallback lookup. -/
def find_by_name (svc : RecipeSearchService) (name : PyStr) : Option Recipe :=
  if pyStrip name = [] then none
  else
    match dictGet svc.name_index name with
    | some r => some r
    | none => dictGet svc.name_index (pyLower name)

/-- Python `set.update`: add the members of `s` (in order) that are not
already present. -/
def setUpdate (acc : List PyStr) (s : List PyStr) : List PyStr :=
  s.foldl (fun a n => if n ∈ a then a else a ++ [n]) acc

/-- The `matched_names` set collected by `search_by_keyword`: the names under
the exact keyword token, unioned with the names under every indexed token that
contains the keyword as a substring. -/
def matchedNamesOf (idx : Dict (List PyStr)) (kwl : PyStr) : List PyStr :=
  let m0 := match dictGet idx kwl with
    | some s => setUpdate [] s
    | none => []
  idx.foldl (fun acc kv => if pyContains kv.1 kwl then setUpdate acc kv.2 else acc) m0

/-- The `matched_recipes` resolution loop of `search_by_keyword`: dedup names,
keep only names still present in the record dict, resolve to records. -/
def resolveNames (recipes : Dict Recipe) (names : List PyStr) : List Recipe :=
  (names.foldl (fun (p : List Recipe × List PyStr) n =>
    if n ∈ p.2 then p
    else
      match dictGet recipes n with
      | some r => (p.1 ++ [r], p.2 ++ [n])
      | none => p) ([], [])).1

/-- `RecipeSearchService._calculate_relevance` (lower is more relevant). -/
def calculate_relevance (recipe_name : PyStr) (keyword : PyStr) : Nat :=
  let nl := pyLower recipe_name
  if nl = keyword then 0
  else if pyStartsWith nl keyword then 1
  else if pyContains nl keyword then 2 + pyIndexOf nl keyword
  else 1000

/-- The stable sort by relevance score in `search_by_keyword`. -/
def sortByRelevance (kwl : PyStr) (l : List Recipe) : List Recipe :=
  List.insertionSort (fun a b => calculate_relevance a.name kwl ≤ calculate_relevance b.name kwl) l

/-- The full match list of `search_by_keyword` before pagination: collect,
resolve, sort. -/
def searchMatches (svc : RecipeSearchService) (keyword : PyStr) : List Recipe :=
  let kwl := pyLower keyword
  sortByRelevance kwl (resolveNames svc.recipes (matchedNamesOf svc.keyword_index kwl))

/-- `max_results = max_results or config.max_search_results` (`0`/`None` are
falsy). -/
def effectiveMaxResults (mr : Option Nat) (cfg : RecipeConfig) : Nat :=
  match mr with
  | some m => if m = 0 then cfg.max_search_results else m
  | none => cfg.max_search_results

/-- `RecipeSearchService.search_by_keyword`. -/
def search_by_keyword (svc : RecipeSearchService) (keyword : PyStr)
    (max_results : Option Nat) : SearchResult :=
  if pyStrip keyword = [] then ⟨[], 0, false, keyword⟩
  else
    let maxr := effectiveMaxResults max_results svc.config
    let matched := searchMatches svc keyword
    ⟨matched.take maxr, matched.length, decide (maxr < matched.length), keyword⟩

/-- The pool-key selection of `get_random_recipes`: the category label when it
is truthy and has a pool, else the empty key (the all-categories pool). -/
def randomPoolKey (svc : RecipeSearchService) (category_zh : Option PyStr) : PyStr :=
  match category_zh with
  | some cat => if cat ≠ [] ∧ (dictGet svc.random_pool cat).isSome then cat else []
  | none => []

/-- `RecipeSearchService.get_random_recipes`, with `random.sample` as a
function parameter. -/
def get_random_recipes (sample : List Recipe → Nat → List Recipe)
    (svc : RecipeSearchService) (count : Nat) (category_zh : Option PyStr) : List Recipe :=
  let c := max svc.config.min_random_count (min count svc.config.max_random_count)
  let pool_key : PyStr := randomPoolKey svc category_zh
  match dictGet svc.random_pool pool_key with
  | none => []
  | some pool =>
    if pool = [] then []
    else if pool.length ≤ c then pool
    else sample pool c

/-- `RecipeSearchService.get_random_recipe_by_category`. -/
def get_random_recipe_by_category (sample : List Recipe → Nat → List Recipe)
    (svc : RecipeSearchService) (category_zh : PyStr) : Option Recipe :=
  match get_random_recipes sample svc 1 (some category_zh) with
  | [] => none
  | r :: _ => some r

/-- `RecipeSearchService.get_categories_info`: categories with at least one
recipe, mapped to their counts. -/
def get_categories_info (svc : RecipeSearchService) : Dict Nat :=
  svc.category_index.foldl (fun acc kv => if kv.2 = [] then acc else acc ++ [(kv.1, kv.2.length)]) []

/-- `RecipeSearchService.get_total_count`. -/
def get_total_count (svc : RecipeSearchService) : Nat := svc.recipes.length

/-- `RecipeSearchService.validate_category`. -/
def validate_category (svc : RecipeSearchService) (category_zh : PyStr) : Bool :=
  match dictGet svc.category_index category_zh with
  | some l => decide (0 < l.length)
  | none => false

/-- State of `LRUCache` (`services/cache_service.py`): a bounded ordered map
from key to `(value, expire_time)`.  Time is modelled as a `Nat` passed
explicitly to `get`/`set` (the source reads `time.time()`). -/
structure LRUCache (α : Type) where
  max_size : Nat
  default_ttl : Nat
  cache : Dict (α × Nat)
deriving DecidableEq, Repr

/-- `LRUCache.get`: miss on absent key; lazy expiry (remove and miss) when
`now > expire_time`; otherwise move the entry to the most-recently-used end
and return its value. -/
def LRUCache.get {α : Type} (c : LRUCache α) (now : Nat) (key : PyStr) :
    Option α × LRUCache α :=
  match dictGet c.cache key with
  | none => (none, c)
  | some (v, expire) =>
    if now > expire then (none, { c with cache := dictPop c.cache key })
    else (some v, { c with cache := dictPop c.cache key ++ [(key, (v, expire))] })

/-- The `while len(cache) >= max_size` eviction loop of `LRUCache.set`:
repeatedly drop the least-recently-used (front) entry. -/
def evictOldest {α : Type} (max_size : Nat) : Dict (α × Nat) → Dict (α × Nat)
  | [] => []
  | e :: rest => if max_size ≤ (e :: rest).length then evictOldest max_size rest else e :: rest

/-- `LRUCache.set`: compute the expiry from `ttl or default_ttl` (`0`/`None`
are falsy), delete an existing entry for the key, evict from the
least-recently-used end while at capacity, then append as most recent. -/
def LRUCache.set {α : Type} (c : LRUCache α) (now : Nat) (key : PyStr) (value : α)
    (ttl : Option Nat) : LRUCache α :=
  let expire := now + (match ttl with
    | some t => if t = 0 then c.default_ttl else t
    | none => c.default_ttl)
  let c1 := if (dictGet c.cache key).isSome then dictPop c.cache key else c.cache
  { c with cache := evictOldest c.max_size c1 ++ [(key, (value, expire))] }

/-- `LRUCache.size`. -/
def LRUCache.size {α : Type} (c : LRUCache α) : Nat := c.cache.length

/-- `LRUCache.clear`. -/
def LRUCache.clear {α : Type} (c : LRUCache α) : LRUCache α := { c with cache := [] }

/-- The six hit/miss counters of `CacheService`. -/
structure CacheStats where
  search_hits : Nat
  search_misses : Nat
  random_hits : Nat
  random_misses : Nat
  category_hits : Nat
  category_misses : Nat
deriving DecidableEq, Repr

def zeroCacheStats : CacheStats := ⟨0, 0, 0, 0, 0, 0⟩

/-- State of `CacheService` (`services/cache_service.py`): three LRU caches of
formatted strings plus hit/miss counters. -/
structure CacheService where
  search_cache : LRUCache PyStr
  random_cache : LRUCache PyStr
  category_cache : LRUCache PyStr
  stats : CacheStats
deriving DecidableEq, Repr

/-- `CacheService.__init__` from a configuration. -/
def mkCacheService (cfg : RecipeConfig) : CacheService :=
  { search_cache := ⟨cfg.search_cache_size, cfg.cache_ttl, []⟩
    random_cache := ⟨cfg.random_pool_size, cfg.cache_ttl, []⟩
    category_cache := ⟨20, cfg.cache_ttl * 2, []⟩
    stats := zeroCacheStats }

/-- `CacheService.get_search_result`: look up `"search:" + query.lower()` and
count a hit iff the result is not `None`. -/
def CacheService.get_search_result (cs : CacheService) (now : Nat) (query : PyStr) :
    Option PyStr × CacheService :=
  let (res, c') := cs.search_cache.get now (str "search:" ++ pyLower query)
  let st := cs.stats
  let st' := if res.isSome then { st with search_hits := st.search_hits + 1 }
             else { st with search_misses := st.search_misses + 1 }
  (res, { cs with search_cache := c', stats := st' })

/-- `CacheService.set_search_result`. -/
def CacheService.set_search_result (cs : CacheService) (now : Nat) (query : PyStr)
    (result : PyStr) (ttl : Option Nat) : CacheService :=
  { cs with search_cache := cs.search_cache.set now (str "search:" ++ pyLower query) result ttl }

/-- `CacheService.get_random_recipes`: look up `"random:" + category + ":" + count`. -/
def CacheService.get_random_recipes (cs : CacheService) (now : Nat) (category : PyStr)
    (count : Nat) : Option PyStr × CacheService :=
  let (res, c') := cs.random_cache.get now (str "random:" ++ category ++ str ":" ++ natStr count)
  let st := cs.stats
  let st' := if res.isSome then { st with random_hits := st.random_hits + 1 }
             else { st with random_misses := st.random_misses + 1 }
  (res, { cs with random_cache := c', stats := st' })

/-- `CacheService.set_random_recipes`. -/
def CacheService.set_random_recipes (cs : CacheService) (now : Nat) (category : PyStr)
    (count : Nat) (result : PyStr) (ttl : Option Nat) : CacheService :=
  { cs with random_cache :=
      cs.random_cache.set now (str "random:" ++ category ++ str ":" ++ natStr count) result ttl }

/-- `CacheService.get_category_info`: look up `"category:" + category`. -/
def CacheService.get_category_info (cs : CacheService) (now : Nat) (category : PyStr) :
    Option PyStr × CacheService :=
  let (res, c') := cs.category_cache.get now (str "category:" ++ category)
  let st := cs.stats
  let st' := if res.isSome then { st with category_hits := st.category_hits + 1 }
             else { st with category_misses := st.category_misses + 1 }
  (res, { cs with category_cache := c', stats := st' })

/-- `CacheService.set_category_info`. -/
def CacheService.set_category_info (cs : CacheService) (now : Nat) (category : PyStr)
    (result : PyStr) (ttl : Option Nat) : CacheService :=
  { cs with category_cache := cs.category_cache.set now (str "category:" ++ category) result ttl }

/-- `CacheService.clear_all`: empty all three caches and reset the counters. -/
def CacheService.clear_all (cs : CacheService) : CacheService :=
  { search_cache := cs.search_cache.clear
    random_cache := cs.random_cache.clear
    category_cache := cs.category_cache.clear
    stats := zeroCacheStats }

/-- Errors a modelled Python operation can raise. -/
inductive PyError where
  | runtimeError (msg : PyStr)
  | attributeError
deriving DecidableEq, Repr

/-- The request counters of `RecipeService`. -/
structure ReqStats where
  requests_total : Nat
  search_requests : Nat
  random_requests : Nat
  category_requests : Nat
  cache_hits : Nat
  cache_misses : Nat
deriving DecidableEq, Repr

/-- State of `RecipeService` (`services/recipe_service.py`).  `is_ready`
models the `_is_initialized` flag; the two service components are `None`
until the first successful start-up. -/
structure RecipeService where
  config : RecipeConfig
  recipes : Dict Recipe
  is_ready : Bool
  search_service : Option RecipeSearchService
  cache_service : Option CacheService
  stats : ReqStats
deriving DecidableEq, Repr

/-- `RecipeService._ensure_initialized`: raise `RuntimeError` when queries
arrive before start-up completed. -/
def ensure_ready (svc : RecipeService) : Except PyError Unit :=
  if svc.is_ready then Except.ok ()
  else Except.error (PyError.runtimeError (str "服务未初始化，请先调用 initialize() 方法"))

/-- `Recipe.full_url` (`models/recipe.py`): prepend the site URL unless the
stored URL is already absolute; `lstrip("/")` drops leading slashes. -/
def Recipe.full_url (r : Recipe) : PyStr :=
  let site := str "https://cook.aiursoft.cn/"
  if pyStartsWith r.url site then r.url else site ++ r.url.dropWhile (fun c => c = 47)

/-- Python `"\n".join(lines)`. -/
def joinLines (lines : List PyStr) : PyStr := List.intercalate (str "\n") lines

/-- `ResponseFormatter.format_search_result` (`utils/formatters.py`). -/
def format_search_result (sr : SearchResult) : PyStr :=
  if sr.recipes = [] then str "🔍 没有找到包含 '" ++ sr.query ++ str "' 的菜品"
  else
    let text := joinLines (sr.recipes.map
      (fun r => str "• " ++ r.name ++ str " (" ++ r.category_zh ++ str ")"))
    if sr.has_more then
      str "🔍 搜索 '" ++ sr.query ++ str "' 的结果（显示前" ++ natStr sr.recipes.length ++
        str "个，共" ++ natStr sr.total_count ++ str "个）：" ++ str "\n" ++ text ++
        str "\n\n... 还有 " ++ natStr (sr.total_count - sr.recipes.length) ++ str " 个结果"
    else
      str "🔍 搜索 '" ++ sr.query ++ str "' 的结果（共" ++ natStr sr.total_count ++
        str "个）：" ++ str "\n" ++ text

/-- `ResponseFormatter.format_random_recipes` (the requested count is unused
by the source body beyond the falsy check on the list). -/
def format_random_recipes (recipes : List Recipe) : PyStr :=
  if recipes = [] then str "😔 暂无可推荐的菜品"
  else
    let text := joinLines (recipes.map
      (fun r => str "• " ++ r.name ++ str " (" ++ r.category_zh ++ str ")"))
    str "🎲 随机推荐 " ++ natStr recipes.length ++ str " 道菜：" ++ str "\n" ++ text

/-- `ResponseFormatter.format_categories_info`: header lines, categories
sorted by descending count, totals and the command help footer. -/
def format_categories_info (info : Dict Nat) (total : Nat) : PyStr :=
  let sorted := List.insertionSort (fun a b : PyStr × Nat => b.2 ≤ a.2) info
  joinLines
    ([str "🍳 吃点啥 - 食谱助手", List.replicate 25 61, str "📊 分类及菜品数量:"] ++
     sorted.map (fun p => str "  " ++ p.1 ++ str ": " ++ natStr p.2 ++ str " 种菜品") ++
     [str "\n📈 总计: " ++ natStr total ++ str " 种菜品",
      str "\n🔧 可用指令:",
      str "• /吃点啥 [分类] - 随机推荐菜品",
      str "• /菜谱分类 - 查看所有分类",
      str "• /菜谱搜索 <关键词> - 搜索菜品",
      str "• /怎么做 <菜名> - 获取制作方法",
      str "• /随机推荐 - 随机推荐3道菜"])

/-- `ResponseFormatter.format_invalid_category`. -/
def format_invalid_category (invalid : PyStr) (valid : List PyStr) : PyStr :=
  str "❌ 未知分类: " ++ invalid ++ str "\n🏷️ 可用分类: " ++ List.intercalate (str ", ") valid

/-- The cache-miss continuation of `RecipeService.search_recipes`. -/
def searchRecipesMiss (svc : RecipeService) (st1 : ReqStats) (cs1 : CacheService)
    (now : Nat) (keyword : PyStr) : Except PyError (PyStr × RecipeService) :=
  let st2 := { st1 with cache_misses := st1.cache_misses + 1 }
  match svc.search_service with
  | none => Except.error PyError.attributeError
  | some ss =>
    let formatted := format_search_result (search_by_keyword ss keyword none)
    let cs2 := cs1.set_search_result now keyword formatted none
    Except.ok (formatted, { svc with stats := st2, cache_service := some cs2 })

/-- `RecipeService.search_recipes`: guard, counters, cache check (a cached
empty string is falsy and falls through to the miss path), search, format,
cache store. -/
def RecipeService.search_recipes (svc : RecipeService) (now : Nat) (keyword : PyStr) :
    Except PyError (PyStr × RecipeService) :=
  match ensure_ready svc with
  | Except.error e => Except.error e
  | Except.ok _ =>
    let st := svc.stats
    let st1 := { st with requests_total := st.requests_total + 1,
                         search_requests := st.search_requests + 1 }
    match svc.cache_service with
    | none => Except.error PyError.attributeError
    | some cs =>
      let (cached, cs1) := cs.get_search_result now keyword
      match cached with
      | some s =>
        if s = [] then searchRecipesMiss svc st1 cs1 now keyword
        else
          Except.ok (s, { svc with stats := { st1 with cache_hits := st1.cache_hits + 1 },
                                   cache_service := some cs1 })
      | none => searchRecipesMiss svc st1 cs1 now keyword

/-- The post-validation remainder of `RecipeService.get_random_recipe`. -/
def getRandomRecipeCont (svc : RecipeService) (st1 : ReqStats)
    (sample : List Recipe → Nat → List Recipe) (now : Nat) (category : Option PyStr) :
    Except PyError (PyStr × RecipeService) :=
  let cache_key : PyStr := match category with
    | some c => if c = [] then str "all" else c
    | none => str "all"
  match svc.cache_service with
  | none => Except.error PyError.attributeError
  | some cs =>
    let (cached, cs1) := cs.get_random_recipes now cache_key 1
    let miss : Except PyError (PyStr × RecipeService) :=
      let st2 := { st1 with cache_misses := st1.cache_misses + 1 }
      match svc.search_service with
      | none => Except.error PyError.attributeError
      | some ss =>
        let result : PyStr := match category with
          | some c =>
            if c = [] then
              match get_random_recipes sample ss 1 none with
              | r :: _ => str "🍽️ 推荐菜品: " ++ r.name ++ str " (" ++ r.category_zh ++ str ")"
              | [] => str "😔 暂无可推荐的菜品"
            else
              match get_random_recipe_by_category sample ss c with
              | some r => str "🍽️ 推荐的" ++ c ++ str ": " ++ r.name
              | none => str "😔 分类 '" ++ c ++ str "' 下暂时没有菜品。"
          | none =>
            match get_random_recipes sample ss 1 none with
            | r :: _ => str "🍽️ 推荐菜品: " ++ r.name ++ str " (" ++ r.category_zh ++ str ")"
            | [] => str "😔 暂无可推荐的菜品"
        let cs2 := cs1.set_random_recipes now cache_key 1 result (some 60)
        Except.ok (result, { svc with stats := st2, cache_service := some cs2 })
    match cached with
    | some s =>
      if s = [] then miss
      else
        Except.ok (s, { svc with stats := { st1 with cache_hits := st1.cache_hits + 1 },
                                 cache_service := some cs1 })
    | none => miss

/-- `RecipeService.get_random_recipe` (random-single query). -/
def RecipeService.get_random_recipe (svc : RecipeService)
    (sample : List Recipe → Nat → List Recipe) (now : Nat) (category : Option PyStr) :
    Except PyError (PyStr × RecipeService) :=
  match ensure_ready svc with
  | Except.error e => Except.error e
  | Except.ok _ =>
    let st := svc.stats
    let st1 := { st with requests_total := st.requests_total + 1,
                         random_requests := st.random_requests + 1 }
    match category with
    | some c =>
      if c = [] then getRandomRecipeCont svc st1 sample now category
      else
        match svc.search_service with
        | none => Except.error PyError.attributeError
        | some ss =>
          if validate_category ss c then getRandomRecipeCont svc st1 sample now category
          else
            Except.ok (format_invalid_category c (dictKeys (get_categories_info ss)),
                       { svc with stats := st1 })
    | none => getRandomRecipeCont svc st1 sample now category

/-- `RecipeService.get_recipe_url` (exact-name lookup query). -/
def RecipeService.get_recipe_url (svc : RecipeService) (dish_name : PyStr) :
    Except PyError (PyStr × RecipeService) :=
  match ensure_ready svc with
  | Except.error e => Except.error e
  | Except.ok _ =>
    let st := svc.stats
    let st1 := { st with requests_total := st.requests_total + 1 }
    match svc.search_service with
    | none => Except.error PyError.attributeError
    | some ss =>
      match find_by_name ss dish_name with
      | some r =>
        Except.ok (str "📖 " ++ r.name ++ str " 的制作方式：" ++ str "\n" ++ r.full_url,
                   { svc with stats := st1 })
      | none =>
        Except.ok (str "❌ 未找到菜品: " ++ dish_name ++
                     str "\n💡 建议使用 /菜谱搜索 查看可用菜品",
                   { svc with stats := st1 })

/-- The cache-miss continuation of `RecipeService.get_categories_info`. -/
def getCategoriesInfoMiss (svc : RecipeService) (st1 : ReqStats) (cs1 : CacheService)
    (now : Nat) : Except PyError (PyStr × RecipeService) :=
  let st2 := { st1 with cache_misses := st1.cache_misses + 1 }
  match svc.search_service with
  | none => Except.error PyError.attributeError
  | some ss =>
    let result := format_categories_info (get_categories_info ss) (get_total_count ss)
    let cs2 := cs1.set_category_info now (str "all") result none
    Except.ok (result, { svc with stats := st2, cache_service := some cs2 })

/-- `RecipeService.get_categories_info` (category-listing query). -/
def RecipeService.get_categories_info (svc : RecipeService) (now : Nat) :
    Except PyError (PyStr × RecipeService) :=
  match ensure_ready svc with
  | Except.error e => Except.error e
  | Except.ok _ =>
    let st := svc.stats
    let st1 := { st with requests_total := st.requests_total + 1,
                         category_requests := st.category_requests + 1 }
    match svc.cache_service with
    | none => Except.error PyError.attributeError
    | some cs =>
      let (cached, cs1) := cs.get_category_info now (str "all")
      match cached with
      | some s =>
        if s = [] then getCategoriesInfoMiss svc st1 cs1 now
        else
          Except.ok (s, { svc with stats := { st1 with cache_hits := st1.cache_hits + 1 },
                                   cache_service := some cs1 })
      | none => getCategoriesInfoMiss svc st1 cs1 now

/-- The cache-miss continuation of `RecipeService.get_random_recipes_batch`. -/
def getRandomBatchMiss (svc : RecipeService) (st1 : ReqStats) (cs1 : CacheService)
    (sample : List Recipe → Nat → List Recipe) (now : Nat) (count : Nat) :
    Except PyError (PyStr × RecipeService) :=
  let st2 := { st1 with cache_misses := st1.cache_misses + 1 }
  match svc.search_service with
  | none => Except.error PyError.attributeError
  | some ss =>
    let recipes := get_random_recipes sample ss count none
    let result := if recipes = [] then str "😔 暂无可推荐的菜品"
                  else format_random_recipes recipes
    let cs2 := cs1.set_random_recipes now (str "all") count result (some 60)
    Except.ok (result, { svc with stats := st2, cache_service := some cs2 })

/-- `RecipeService.get_random_recipes_batch` (random-batch query). -/
def RecipeService.get_random_recipes_batch (svc : RecipeService)
    (sample : List Recipe → Nat → List Recipe) (now : Nat) (count : Nat) :
    Except PyError (PyStr × RecipeService) :=
  match ensure_ready svc with
  | Except.error e => Except.error e
  | Except.ok _ =>
    let st := svc.stats
    let st1 := { st with requests_total := st.requests_total + 1,
                         random_requests := st.random_requests + 1 }
    let c := max svc.config.min_random_count (min count svc.config.max_random_count)
    match svc.cache_service with
    | none => Except.error PyError.attributeError
    | some cs =>
      let (cached, cs1) := cs.get_random_recipes now (str "all") c
      match cached with
      | some s =>
        if s = [] then getRandomBatchMiss svc st1 cs1 sample now c
        else
          Except.ok (s, { svc with stats := { st1 with cache_hits := st1.cache_hits + 1 },
                                   cache_service := some cs1 })
      | none => getRandomBatchMiss svc st1 cs1 sample now c

/-- `RecipeService.reload_data`: clear all caches up front, then attempt the
fetch/parse (its outcome is passed in as `load`); on failure return the error
message, on success replace the record set and rebuild the search index. -/
def RecipeService.reload_data (svc : RecipeService)
    (shuffle : List Recipe → List Recipe) (load : Except PyStr (Dict Recipe)) :
    RecipeService × PyStr :=
  let svc1 := match svc.cache_service with
    | some cs => { svc with cache_service := some cs.clear_all }
    | none => svc
  match load with
  | Except.error e => (svc1, str "❌ 数据重新加载失败: " ++ e)
  | Except.ok recs =>
    let svc2 := { svc1 with recipes := recs }
    let svc3 := match svc2.search_service with
      | some ss => { svc2 with search_service := some (update_recipes shuffle ss recs) }
      | none => svc2
    (svc3, str "✅ 数据重新加载完成，共 " ++ natStr recs.length ++ str " 个食谱")

/-- Test driver: insert a sequence of keys (same value/default TTL) into a
cache, as in the capacity scenario of the spec. -/
def lruInsertAll {α : Type} (c : LRUCache α) (now : Nat) (v : α) (ks : List PyStr) :
    LRUCache α :=
  ks.foldl (fun c k => c.set now k v none) c

/-- Concrete record and services reused by witnesses and counterexamples. -/
def rEgg : Recipe := ⟨str "egg", str "breakfast", str "早餐", str "dishes/breakfast/egg/"⟩

def svcEgg : RecipeSearchService := mkSearchService [(str "egg", rEgg)] {} id

def csSeeded : CacheService := (mkCacheService {}).set_search_result 0 (str "q") (str "r") none

def rsSeeded : RecipeService :=
  ⟨{}, [(str "egg", rEgg)], true, some svcEgg, some csSeeded, ⟨0, 0, 0, 0, 0, 0⟩⟩

def rApple : Recipe := ⟨str "apple pie", str "dessert", str "甜点", str "dishes/dessert/apple/"⟩

def svcTwo : RecipeSearchService :=
  mkSearchService [(str "egg", rEgg), (str "apple pie", rApple)] {} id

/-- The three records of the spec's relevance-ordering acceptance test. -/
def rJiDan : Recipe := ⟨str "鸡蛋", str "breakfast", str "早餐", str "dishes/breakfast/鸡蛋/"⟩

def rXiHongShi : Recipe :=
  ⟨str "西红柿炒鸡蛋", str "vegetable_dish", str "素菜", str "dishes/vegetable_dish/西红柿炒鸡蛋/"⟩

def rJi : Recipe := ⟨str "鸡", str "meat_dish", str "荤菜", str "dishes/meat_dish/鸡/"⟩

def svcChicken : RecipeSearchService :=
  mkSearchService
    [(str "鸡蛋", rJiDan), (str "西红柿炒鸡蛋", rXiHongShi), (str "鸡", rJi)] {} id

def rAbcd : Recipe := ⟨str "abcd", str "dessert", str "甜点", str "dishes/dessert/abcd/"⟩

def svcAbcd : RecipeSearchService := mkSearchService [(str "abcd", rAbcd)] {} id

/-- Two distinct records whose names differ only in letter case. -/
def rUp : Recipe := ⟨str "Abc", str "dessert", str "甜点", str "dishes/dessert/Abc/"⟩

def rLo : Recipe := ⟨str "abc", str "drink", str "饮料", str "dishes/drink/abc/"⟩

def svcCase : RecipeSearchService :=
  mkSearchService [(str "Abc", rUp), (str "abc", rLo)] {} id

/-- A recipe service before its first successful start-up. -/
def rsFresh : RecipeService := ⟨{}, [], false, none, none, ⟨0, 0, 0, 0, 0, 0⟩⟩

/-- The step writing one record into the name index, as iterated by the build
loop (exact name first, then lowercased name). -/
def nameStep (d : Dict Recipe) (kv : PyStr × Recipe) : Dict Recipe :=
  dictSet (dictSet d kv.2.name kv.2) (pyLower kv.2.name) kv.2

/-! Basic lemmas about the dict model. -/

@[simp] theorem dictGet_nil {α : Type} (k : PyStr) : dictGet ([] : Dict α) k = none := rfl

@[simp] theorem dictGet_cons {α : Type} (k' : PyStr) (v : α) (d : Dict α) (k : PyStr) :
    dictGet ((k', v) :: d) k = if k' = k then some v else dictGet d k := rfl

theorem dictGet_append {α : Type} (d d' : Dict α) (k : PyStr) :
    dictGet (d ++ d') k = ((dictGet d k).rec (dictGet d' k) (fun v => some v)) := by
  induction d with
  | nil => rfl
  | cons e rest ih =>
    obtain ⟨k', v⟩ := e
    by_cases h : k' = k <;> simp [h, ih]

theorem dictGet_append_of_none {α : Type} {d : Dict α} {k : PyStr} (d' : Dict α)
    (h : dictGet d k = none) : dictGet (d ++ d') k = dictGet d' k := by
  rw [dictGet_append, h]

theorem dictGet_append_of_some {α : Type} {d : Dict α} {k : PyStr} {v : α} (d' : Dict α)
    (h : dictGet d k = some v) : dictGet (d ++ d') k = some v := by
  rw [dictGet_append, h]

theorem dictGet_set_self {α : Type} (d : Dict α) (k : PyStr) (v : α) :
    dictGet (dictSet d k v) k = some v := by
  induction d with
  | nil => simp [dictSet]
  | cons e rest ih =>
    obtain ⟨k', v'⟩ := e
    by_cases h : k' = k <;> simp [dictSet, h, ih]

theorem dictGet_set_ne {α : Type} (d : Dict α) (k : PyStr) (v : α) {q : PyStr} (h : q ≠ k) :
    dictGet (dictSet d k v) q = dictGet d q := by
  induction d with
  | nil => simp [dictSet, h.symm]
  | cons e rest ih =>
    obtain ⟨k', v'⟩ := e
    by_cases hk : k' = k
    · subst hk
      simp [dictSet, h.symm]
    · by_cases hq : k' = q
      · subst hq
        simp [dictSet, hk]
      · simp [dictSet, hk, hq, ih]

theorem dictGet_pop_ne {α : Type} (d : Dict α) (k : PyStr) {q : PyStr} (h : q ≠ k) :
    dictGet (dictPop d k) q = dictGet d q := by
  induction d with
  | nil => rfl
  | cons e rest ih =>
    obtain ⟨k', v'⟩ := e
    by_cases hk : k' = k
    · subst hk
      simp [dictPop, h.symm]
    · by_cases hq : k' = q
      · subst hq
        simp [dictPop, hk]
      · simp [dictPop, hk, hq, ih]

theorem dictGet_isSome_mem_keys {α : Type} {d : Dict α} {k : PyStr}
    (h : (dictGet d k).isSome) : k ∈ dictKeys d := by
  induction d with
  | nil => simp [dictGet] at h
  | cons e rest ih =>
    obtain ⟨k', v'⟩ := e
    by_cases hk : k' = k
    · simp [dictKeys, hk]
    · simp only [dictGet_cons, hk, if_false] at h
      simp [dictKeys, Or.inr (by simpa [dictKeys] using ih h)]

theorem dictGet_pop_self_of_nodup {α : Type} {d : Dict α} (k : PyStr)
    (h : (dictKeys d).Nodup) : dictGet (dictPop d k) k = none := by
  induction d with
  | nil => rfl
  | cons e rest ih =>
    obtain ⟨k', v'⟩ := e
    simp only [dictKeys, List.map_cons, List.nodup_cons] at h
    by_cases hk : k' = k
    · subst hk
      simp only [dictPop, if_pos rfl]
      cases hr : dictGet rest k' with
      | none => exact hr
      | some v =>
        exact absurd (dictGet_isSome_mem_keys (by simp [hr])) h.1
    · simp only [dictPop, if_neg hk, dictGet_cons, if_neg hk]
      exact ih h.2

theorem length_dictPop_of_some {α : Type} {d : Dict α} {k : PyStr} {v : α}
    (h : dictGet d k = some v) : (dictPop d k).length = d.length - 1 := by
  induction d with
  | nil => simp [dictGet] at h
  | cons e rest ih =>
    obtain ⟨k', v'⟩ := e
    by_cases hk : k' = k
    · simp [dictPop, hk]
    · simp only [dictGet_cons, hk, if_false] at h
      have hlen : 1 ≤ rest.length := by
        cases rest with
        | nil => simp [dictGet] at h
        | cons _ _ => simp
      simp only [dictPop, hk, if_false, List.length_cons, ih h]
      omega

/-! ### Claim C10: blank lookup strings short-circuit `find_by_name` -/

/-- Claim C10: for every built index, `FindExact` applied to an empty or
whitespace-only string returns `None` without consulting the name index (the
conclusion holds for every index state whatsoever). -/
theorem claim_C10_blank_find_none (svc : RecipeSearchService) (name : PyStr)
    (h : pyStrip name = []) : find_by_name svc name = none := by
  simp [find_by_name, h]

theorem claim_C10_witness :
    pyStrip (str "  ") = [] ∧ find_by_name svcEgg (str "  ") = none :=
  ⟨by decide, claim_C10_blank_find_none svcEgg (str "  ") (by decide)⟩

/-! ### Claim C1: rebuilding from an empty record collection -/

theorem foldl_const {α β : Type} {f : α → β → α} (h : ∀ a b, f a b = a) :
    ∀ (l : List β) (a : α), l.foldl f a = a := by
  intro l
  induction l with
  | nil => intro a; rfl
  | cons x xs ih => intro a; rw [List.foldl_cons, h a x]; exact ih a

theorem resolveNames_nil_aux (names : List PyStr) (acc : List Recipe × List PyStr) :
    names.foldl (fun (p : List Recipe × List PyStr) n =>
      if n ∈ p.2 then p
      else
        match dictGet ([] : Dict Recipe) n with
        | some r => (p.1 ++ [r], p.2 ++ [n])
        | none => p) acc = acc := by
  induction names generalizing acc with
  | nil => rfl
  | cons x xs ih =>
    rw [List.foldl_cons]
    have hstep : (if x ∈ acc.2 then acc
        else
          match dictGet ([] : Dict Recipe) x with
          | some r => (acc.1 ++ [r], acc.2 ++ [x])
          | none => acc) = acc := by
      by_cases hb : x ∈ acc.2 <;> simp [hb, dictGet]
    rw [hstep]
    exact ih acc

theorem resolveNames_nil_recipes (names : List PyStr) : resolveNames [] names = [] := by
  unfold resolveNames
  rw [resolveNames_nil_aux]

/-- Claim C1 is false on the code: `_build_indexes` returns early on an empty
record dict, before the clearing step, so the stale indices survive.  In this
concrete run, an index built from one record and then updated with an empty
collection still resolves `FindExact("egg")` to the old record, and still
reports the old category counts, where the claim requires empty answers. -/
theorem claim_C1_counterexample :
    find_by_name (update_recipes id svcEgg []) (str "egg") = some rEgg ∧
    get_categories_info (update_recipes id svcEgg []) = [(str "早餐", 1)] ∧
    get_random_recipes (fun pool _ => pool) (update_recipes id svcEgg []) 1 none = [rEgg] := by
  constructor
  · decide
  constructor
  · decide
  · decide

/-- Claim C1 amended: `UpdateRecords` with an empty record collection replaces
the owned record dict but skips the rebuild (early return before the clearing
step), so all indices — name, category, keyword, random pools — remain those
of the previous build; `FindExact`, `GetRandomRecipes` and `GetCategoriesInfo`
keep answering from the stale indices, while `SearchByKeyword` returns an
empty result because every matched name is filtered against the now-empty
record dict. -/
theorem claim_C1_empty_update_keeps_stale_indices (svc : RecipeSearchService)
    (shuffle : List Recipe → List Recipe) (kw : PyStr) (mr : Option Nat) :
    (update_recipes shuffle svc []).name_index = svc.name_index ∧
    (update_recipes shuffle svc []).category_index = svc.category_index ∧
    (update_recipes shuffle svc []).keyword_index = svc.keyword_index ∧
    (update_recipes shuffle svc []).random_pool = svc.random_pool ∧
    (update_recipes shuffle svc []).recipes = [] ∧
    (search_by_keyword (update_recipes shuffle svc []) kw mr).recipes = [] ∧
    (search_by_keyword (update_recipes shuffle svc []) kw mr).total_count = 0 := by
  have hu : update_recipes shuffle svc [] = { svc with recipes := [] } := by
    simp [update_recipes, buildIndexes]
  rw [hu]
  refine ⟨rfl, rfl, rfl, rfl, rfl, ?_, ?_⟩ <;>
  · by_cases hb : pyStrip kw = [] <;>
      simp [search_by_keyword, hb, searchMatches, resolveNames_nil_recipes, sortByRelevance]

/-! ### Claim C3: reload failure and the cache layer -/

/-- Claim C3 is false on the code: `reload_data` clears all caches *before*
attempting the fetch, so a failing reload does not leave the cache contents
intact.  Concretely, a service whose search cache holds one entry ends the
failed reload with an empty search cache. -/
theorem claim_C3_counterexample :
    (rsSeeded.cache_service.map (fun cs => cs.search_cache.size)) = some 1 ∧
    ((rsSeeded.reload_data id (Except.error (str "boom"))).1.cache_service.map
      (fun cs => cs.search_cache.size)) = some 0 := by
  constructor
  · decide
  · decide

/-- Claim C3 amended: when the reload's fetch/parse step fails, the previously
published search service (the whole index) and the owned record set are
unchanged, but the caches do not survive: they are unconditionally cleared (and
their hit/miss statistics reset) at the start of the reload, i.e. the resulting
cache state is exactly `clear_all` of the old one. -/
theorem claim_C3_failed_reload_keeps_index_clears_caches (svc : RecipeService)
    (shuffle : List Recipe → List Recipe) (e : PyStr) :
    (svc.reload_data shuffle (Except.error e)).1.search_service = svc.search_service ∧
    (svc.reload_data shuffle (Except.error e)).1.recipes = svc.recipes ∧
    (svc.reload_data shuffle (Except.error e)).1.is_ready = svc.is_ready ∧
    (svc.reload_data shuffle (Except.error e)).1.cache_service
      = svc.cache_service.map CacheService.clear_all := by
  cases h : svc.cache_service <;> simp [RecipeService.reload_data, h]

/-! ### LRU cache lemmas (claims C6, C7) -/

theorem dictGet_eq_none_iff {α : Type} (d : Dict α) (k : PyStr) :
    dictGet d k = none ↔ k ∉ dictKeys d := by
  induction d with
  | nil => simp [dictKeys]
  | cons e rest ih =>
    obtain ⟨k', v'⟩ := e
    simp only [dictKeys, List.map_cons, List.mem_cons, not_or] at *
    by_cases hk : k' = k
    · subst hk
      simp
    · have hk2 : ¬ k = k' := fun h => hk h.symm
      simp [hk, hk2, ih]

theorem evictOldest_of_lt {α : Type} {m : Nat} {l : Dict (α × Nat)} (h : l.length < m) :
    evictOldest m l = l := by
  cases l with
  | nil => rfl
  | cons e rest =>
    have hc : ¬ m ≤ rest.length + 1 := by
      simp only [List.length_cons] at h
      omega
    simp [evictOldest, hc]

theorem evictOldest_length_le {α : Type} (m : Nat) (l : Dict (α × Nat)) :
    (evictOldest m l).length ≤ m - 1 := by
  induction l with
  | nil => simp [evictOldest]
  | cons e rest ih =>
    by_cases h : m ≤ rest.length + 1
    · simpa [evictOldest, h] using ih
    · have hlen : rest.length + 1 ≤ m - 1 := by omega
      simpa [evictOldest, h] using hlen

theorem evictOldest_of_eq {α : Type} {m : Nat} {l : Dict (α × Nat)}
    (h1 : l.length = m) (h2 : 1 ≤ m) : evictOldest m l = l.tail := by
  cases l with
  | nil =>
    simp only [List.length_nil] at h1
    omega
  | cons e rest =>
    have h1' : rest.length + 1 = m := by simpa using h1
    have hcond : m ≤ rest.length + 1 := by omega
    have hrest : rest.length < m := by omega
    simp [evictOldest, hcond, evictOldest_of_lt hrest]

theorem dictGet_evictOldest_none {α : Type} {m : Nat} {l : Dict (α × Nat)} {k : PyStr}
    (h : dictGet l k = none) : dictGet (evictOldest m l) k = none := by
  induction l with
  | nil => simpa [evictOldest] using h
  | cons e rest ih =>
    obtain ⟨k', v'⟩ := e
    by_cases hk : k' = k
    · simp [hk] at h
    · simp only [dictGet_cons, hk, if_false] at h
      by_cases hc : m ≤ rest.length + 1
      · simpa [evictOldest, hc] using ih h
      · simp [evictOldest, hc, hk, h]

theorem lru_set_max_size {α : Type} (c : LRUCache α) (now : Nat) (k : PyStr) (v : α)
    (ttl : Option Nat) : (c.set now k v ttl).max_size = c.max_size := rfl

/-- After any `set`, the new entry is at the most-recently-used end and its key
resolves to the freshly stored value (given the dict invariant of unique keys). -/
theorem lru_get_after_set {α : Type} (c : LRUCache α) (now : Nat) (k : PyStr) (v : α)
    (ttl : Option Nat) (hnd : (dictKeys c.cache).Nodup) :
    ∃ expire, dictGet (c.set now k v ttl).cache k = some (v, expire) ∧ now ≤ expire := by
  have hc1 : dictGet (if (dictGet c.cache k).isSome then dictPop c.cache k else c.cache) k
      = none := by
    cases hg : dictGet c.cache k with
    | none => simpa [hg] using hg
    | some x => simpa [hg] using dictGet_pop_self_of_nodup k hnd
  refine ⟨now + (match ttl with
    | some t => if t = 0 then c.default_ttl else t
    | none => c.default_ttl), ?_, by omega⟩
  have hev := dictGet_evictOldest_none (m := c.max_size) hc1
  simp only [LRUCache.set]
  rw [dictGet_append_of_none _ hev]
  simp

theorem lru_set_fresh_keys {α : Type} (c : LRUCache α) (now : Nat) (k : PyStr) (v : α)
    (ttl : Option Nat) (hfresh : k ∉ dictKeys c.cache) (hroom : c.cache.length < c.max_size) :
    dictKeys (c.set now k v ttl).cache = dictKeys c.cache ++ [k] := by
  have hget : dictGet c.cache k = none := (dictGet_eq_none_iff _ _).mpr hfresh
  simp [LRUCache.set, hget, evictOldest_of_lt hroom, dictKeys]

theorem lru_set_fresh_full_keys {α : Type} (c : LRUCache α) (now : Nat) (k : PyStr) (v : α)
    (ttl : Option Nat) (hfresh : k ∉ dictKeys c.cache) (hfull : c.cache.length = c.max_size)
    (hpos : 1 ≤ c.max_size) :
    dictKeys (c.set now k v ttl).cache = (dictKeys c.cache).tail ++ [k] := by
  have hget : dictGet c.cache k = none := (dictGet_eq_none_iff _ _).mpr hfresh
  have htail : dictKeys c.cache.tail = (dictKeys c.cache).tail := by
    cases c.cache <;> simp [dictKeys]
  simp [LRUCache.set, hget, evictOldest_of_eq hfull hpos, dictKeys, ← htail]

theorem lruInsertAll_keys_of_room {α : Type} (now : Nat) (v : α) :
    ∀ (ks : List PyStr) (c : LRUCache α), (∀ k ∈ ks, k ∉ dictKeys c.cache) → ks.Nodup →
      c.cache.length + ks.length ≤ c.max_size →
      dictKeys (lruInsertAll c now v ks).cache = dictKeys c.cache ++ ks ∧
      (lruInsertAll c now v ks).max_size = c.max_size := by
  intro ks
  induction ks with
  | nil => exact fun c _ _ _ => ⟨by simp [lruInsertAll], rfl⟩
  | cons k ks ih =>
    intro c hfresh hnd hlen
    have hroom : c.cache.length < c.max_size := by
      simp only [List.length_cons] at hlen
      omega
    have hkeys1 : dictKeys (c.set now k v none).cache = dictKeys c.cache ++ [k] :=
      lru_set_fresh_keys c now k v none (hfresh k (by simp)) hroom
    have hlen1 : (c.set now k v none).cache.length = c.cache.length + 1 := by
      have := congrArg List.length hkeys1
      simpa [dictKeys] using this
    have hknotin : k ∉ ks := (List.nodup_cons.mp hnd).1
    obtain ⟨h1, h2⟩ := ih (c.set now k v none)
      (by
        intro k' hk'
        rw [hkeys1]
        simp only [List.mem_append, List.mem_singleton]
        rintro (hin | rfl)
        · exact hfresh k' (by simp [hk']) hin
        · exact hknotin hk')
      (List.Nodup.of_cons hnd)
      (by
        rw [hlen1, lru_set_max_size]
        simp only [List.length_cons] at hlen
        omega)
    refine ⟨?_, ?_⟩
    · show dictKeys (lruInsertAll (c.set now k v none) now v ks).cache = _
      rw [h1, hkeys1, List.append_assoc]
      rfl
    · show (lruInsertAll (c.set now k v none) now v ks).max_size = _
      rw [h2, lru_set_max_size]

theorem lruInsertAll_full_scenario (ttl0 now : Nat) (v : PyStr) (n : Nat) (ks : List PyStr)
    (hn : 1 ≤ n) (hnd : ks.Nodup) (hlen : ks.length = n + 1) :
    dictKeys (lruInsertAll (⟨n, ttl0, []⟩ : LRUCache PyStr) now v ks).cache = ks.tail ∧
    (lruInsertAll (⟨n, ttl0, []⟩ : LRUCache PyStr) now v ks).size = n := by
  have hne : ks ≠ [] := by
    intro h
    rw [h] at hlen
    simp at hlen
  obtain ⟨ks', kl, hks⟩ : ∃ ks' kl, ks = ks' ++ [kl] :=
    ⟨ks.dropLast, ks.getLast hne, (List.dropLast_append_getLast hne).symm⟩
  subst hks
  have hlen' : ks'.length = n := by
    simp only [List.length_append, List.length_singleton] at hlen
    omega
  obtain ⟨hnd', -, hdisj⟩ := List.nodup_append.mp hnd
  obtain ⟨hkeys, hmax⟩ := lruInsertAll_keys_of_room now v ks' (⟨n, ttl0, []⟩ : LRUCache PyStr)
    (by intro k _; simp [dictKeys]) hnd' (by simp [hlen'])
  have hfoldl : lruInsertAll (⟨n, ttl0, []⟩ : LRUCache PyStr) now v (ks' ++ [kl])
      = (lruInsertAll (⟨n, ttl0, []⟩ : LRUCache PyStr) now v ks').set now kl v none := by
    simp [lruInsertAll, List.foldl_append]
  have hkeys1 : dictKeys (lruInsertAll (⟨n, ttl0, []⟩ : LRUCache PyStr) now v ks').cache
      = ks' := by simpa [dictKeys] using hkeys
  have hlen1 : (lruInsertAll (⟨n, ttl0, []⟩ : LRUCache PyStr) now v ks').cache.length = n := by
    have := congrArg List.length hkeys1
    simpa [dictKeys, hlen'] using this
  have hklfresh :
      kl ∉ dictKeys (lruInsertAll (⟨n, ttl0, []⟩ : LRUCache PyStr) now v ks').cache := by
    rw [hkeys1]
    intro hmem
    exact hdisj hmem (by simp)
  have hset := lru_set_fresh_full_keys _ now kl v none hklfresh (by rw [hlen1, hmax]) (by rw [hmax]; exact hn)
  have htails : (dictKeys (lruInsertAll (⟨n, ttl0, []⟩ : LRUCache PyStr) now v ks').cache).tail
      ++ [kl] = (ks' ++ [kl]).tail := by
    rw [hkeys1]
    cases ks' with
    | nil =>
      exfalso
      simp only [List.length_nil] at hlen'
      omega
    | cons a t => simp
  constructor
  · rw [hfoldl, hset, htails]
  · rw [hfoldl]
    have hlenkeys := congrArg List.length hset
    rw [hkeys1] at hlenkeys
    simp only [dictKeys, List.length_map, List.length_append, List.length_tail,
      List.length_singleton] at hlenkeys
    show ((lruInsertAll (⟨n, ttl0, []⟩ : LRUCache PyStr) now v ks').set
        now kl v none).cache.length = n
    rw [hlenkeys, hlen']
    omega

/-- Claim C6: capacity and LRU eviction.  (a) With `max_size ≥ 1`, the size
bound `size() ≤ max_size` holds immediately after any `Set`.  (b) Inserting
`max_size + 1` distinct fresh keys into an empty cache leaves exactly
`max_size` entries and evicts exactly the least-recently-used key — the first
inserted — keeping the rest in recency order.  (c) A live `Get` promotes the
accessed entry to the most-recently-used end, which is why the evicted key in
(b) is always the one whose last promotion or insertion is oldest. -/
theorem claim_C6_capacity_and_lru_eviction :
    (∀ (c : LRUCache PyStr) (now : Nat) (k : PyStr) (v : PyStr) (ttl : Option Nat),
       1 ≤ c.max_size → (c.set now k v ttl).size ≤ c.max_size) ∧
    (∀ (ttl0 now : Nat) (v : PyStr) (n : Nat) (ks : List PyStr),
       1 ≤ n → ks.Nodup → ks.length = n + 1 →
       dictKeys (lruInsertAll (⟨n, ttl0, []⟩ : LRUCache PyStr) now v ks).cache = ks.tail ∧
       (lruInsertAll (⟨n, ttl0, []⟩ : LRUCache PyStr) now v ks).size = n) ∧
    (∀ (c : LRUCache PyStr) (now : Nat) (k : PyStr) (v : PyStr) (e : Nat),
       dictGet c.cache k = some (v, e) → ¬ now > e →
       (c.get now k).2.cache = dictPop c.cache k ++ [(k, (v, e))]) := by
  refine ⟨?_, ?_, ?_⟩
  · intro c now k v ttl h
    have := evictOldest_length_le c.max_size
      (if (dictGet c.cache k).isSome then dictPop c.cache k else c.cache)
    simp only [LRUCache.set, LRUCache.size, List.length_append, List.length_cons,
      List.length_nil]
    omega
  · intro ttl0 now v n ks hn hnd hlen
    have h := lruInsertAll_full_scenario ttl0 now v n ks hn hnd hlen
    exact h
  · intro c now k v e hget hlive
    simp [LRUCache.get, hget, hlive]

theorem claim_C6_witness :
    (((⟨2, 5, [(str "a", (str "x", 10)), (str "b", (str "y", 10))]⟩ : LRUCache PyStr).set
        0 (str "c") (str "z") none).size ≤ 2) ∧
    (dictKeys (lruInsertAll (⟨1, 5, []⟩ : LRUCache PyStr) 0 (str "v")
        [str "a", str "b"]).cache = [str "a", str "b"].tail ∧
     (lruInsertAll (⟨1, 5, []⟩ : LRUCache PyStr) 0 (str "v") [str "a", str "b"]).size = 1) ∧
    (((⟨2, 5, [(str "a", (str "x", 10)), (str "b", (str "y", 10))]⟩ : LRUCache PyStr).get
        3 (str "a")).2.cache
      = dictPop [(str "a", (str "x", 10)), (str "b", (str "y", 10))] (str "a")
          ++ [(str "a", (str "x", 10))]) :=
  ⟨claim_C6_capacity_and_lru_eviction.1 _ 0 (str "c") (str "z") none (by decide),
   claim_C6_capacity_and_lru_eviction.2.1 5 0 (str "v") 1 [str "a", str "b"]
     (by decide) (by decide) (by decide),
   claim_C6_capacity_and_lru_eviction.2.2 _ 3 (str "a") (str "x") 10 (by decide) (by decide)⟩

/-- Claim C7: lazy TTL expiry on `Get`.  (1) A `Set` followed immediately by a
`Get` of the same key returns the stored value.  (2) A `Get` at a time
strictly later than the entry's expiry returns `None`, removes the entry (the
size decreases by exactly one), and the entry can never be returned again by
any later `Get`.  (3) A `Get` of an absent key returns `None` and leaves the
cache unchanged.  The hypothesis that the stored keys are duplicate-free is
the representation invariant of the Python dict backing the cache. -/
theorem claim_C7_ttl_lazy_expiry :
    (∀ (c : LRUCache PyStr) (now : Nat) (k : PyStr) (v : PyStr) (ttl : Option Nat),
       (dictKeys c.cache).Nodup → ((c.set now k v ttl).get now k).1 = some v) ∧
    (∀ (c : LRUCache PyStr) (now : Nat) (k : PyStr) (v : PyStr) (e : Nat),
       (dictKeys c.cache).Nodup → dictGet c.cache k = some (v, e) → now > e →
       (c.get now k).1 = none ∧ (c.get now k).2.size + 1 = c.size ∧
       ∀ now2, (((c.get now k).2).get now2 k).1 = none) ∧
    (∀ (c : LRUCache PyStr) (now : Nat) (k : PyStr),
       dictGet c.cache k = none → (c.get now k).1 = none ∧ (c.get now k).2 = c) := by
  refine ⟨?_, ?_, ?_⟩
  · intro c now k v ttl hnd
    obtain ⟨e, hget, hle⟩ := lru_get_after_set c now k v ttl hnd
    simp [LRUCache.get, hget, Nat.not_lt.mpr hle]
  · intro c now k v e hnd hget hexp
    have hpop : dictGet (dictPop c.cache k) k = none := dictGet_pop_self_of_nodup k hnd
    have h1 : (dictPop c.cache k).length = c.cache.length - 1 := length_dictPop_of_some hget
    have h2 : 1 ≤ c.cache.length := by
      cases hc : c.cache with
      | nil =>
        rw [hc] at hget
        simp at hget
      | cons _ _ => simp [hc]
    refine ⟨?_, ?_, ?_⟩
    · simp [LRUCache.get, hget, hexp]
    · simp only [LRUCache.get, hget, hexp, if_pos, LRUCache.size, h1]
      omega
    · intro now2
      simp [LRUCache.get, hget, hexp, hpop]
  · intro c now k hget
    simp [LRUCache.get, hget]

theorem claim_C7_witness :
    ((((⟨2, 5, []⟩ : LRUCache PyStr).set 0 (str "k") (str "v") (some 1)).get 0 (str "k")).1
       = some (str "v")) ∧
    (((⟨2, 5, [(str "k", (str "v", 1))]⟩ : LRUCache PyStr).get 2 (str "k")).1 = none ∧
     ((⟨2, 5, [(str "k", (str "v", 1))]⟩ : LRUCache PyStr).get 2 (str "k")).2.size + 1
       = (⟨2, 5, [(str "k", (str "v", 1))]⟩ : LRUCache PyStr).size ∧
     (((((⟨2, 5, [(str "k", (str "v", 1))]⟩ : LRUCache PyStr).get 2 (str "k")).2).get
        7 (str "k")).1 = none)) ∧
    (((⟨2, 5, []⟩ : LRUCache PyStr).get 0 (str "k")).1 = none ∧
     ((⟨2, 5, []⟩ : LRUCache PyStr).get 0 (str "k")).2 = (⟨2, 5, []⟩ : LRUCache PyStr)) :=
  ⟨claim_C7_ttl_lazy_expiry.1 _ 0 (str "k") (str "v") (some 1) (by decide),
   ⟨(claim_C7_ttl_lazy_expiry.2.1 _ 2 (str "k") (str "v") 1 (by decide) (by decide)
       (by decide)).1,
    (claim_C7_ttl_lazy_expiry.2.1 _ 2 (str "k") (str "v") 1 (by decide) (by decide)
       (by decide)).2.1,
    (claim_C7_ttl_lazy_expiry.2.1 _ 2 (str "k") (str "v") 1 (by decide) (by decide)
       (by decide)).2.2 7⟩,
   claim_C7_ttl_lazy_expiry.2.2 _ 0 (str "k") (by decide)⟩

/-! ### Build invariants for the random pools (claim C5) -/

theorem dictGet_mem {α : Type} {d : Dict α} {k : PyStr} {v : α}
    (h : dictGet d k = some v) : (k, v) ∈ d := by
  induction d with
  | nil => simp at h
  | cons e rest ih =>
    obtain ⟨k', v'⟩ := e
    by_cases hk : k' = k
    · subst hk
      have hv : v' = v := by simpa using h
      subst hv
      exact List.mem_cons_self _ _
    · simp only [dictGet_cons, hk, if_false] at h
      exact List.mem_cons_of_mem _ (ih h)

theorem mem_dictSet {α : Type} {d : Dict α} {k : PyStr} {v : α} {e : PyStr × α}
    (h : e ∈ dictSet d k v) : e ∈ d ∨ e = (k, v) := by
  induction d with
  | nil =>
    simp only [dictSet, List.mem_singleton] at h
    exact Or.inr h
  | cons e' rest ih =>
    obtain ⟨k', v'⟩ := e'
    by_cases hk : k' = k
    · subst hk
      rw [show dictSet ((k', v') :: rest) k' v = (k', v) :: rest by simp [dictSet]] at h
      rcases List.mem_cons.mp h with h1 | h1
      · exact Or.inr h1
      · exact Or.inl (List.mem_cons_of_mem _ h1)
    · rw [show dictSet ((k', v') :: rest) k v = (k', v') :: dictSet rest k v by
        simp [dictSet, hk]] at h
      rcases List.mem_cons.mp h with h1 | h1
      · exact Or.inl (by rw [h1]; exact List.mem_cons_self _ _)
      · rcases ih h1 with h2 | h2
        · exact Or.inl (List.mem_cons_of_mem _ h2)
        · exact Or.inr h2

theorem buildIndexes_foldl (shuffle : List Recipe → List Recipe)
    (svc : RecipeSearchService) (h : ¬ svc.recipes = []) :
    buildIndexes shuffle svc = buildRandomPools shuffle (svc.recipes.foldl buildStep
      { svc with name_index := [], category_index := [], keyword_index := [],
                 random_pool := [], all_recipes_list := [] }) := by
  rw [buildIndexes, if_neg h]
  rfl

theorem foldl_buildStep_const_fields (l : Dict Recipe) :
    ∀ s : RecipeSearchService, (l.foldl buildStep s).config = s.config ∧
      (l.foldl buildStep s).recipes = s.recipes ∧
      (l.foldl buildStep s).random_pool = s.random_pool := by
  induction l with
  | nil => exact fun s => ⟨rfl, rfl, rfl⟩
  | cons kv rest ih =>
    intro s
    simpa [buildStep, processRecipe] using ih (processRecipe s kv.2)

theorem foldl_buildStep_all_list (l : Dict Recipe) :
    ∀ s : RecipeSearchService,
      (l.foldl buildStep s).all_recipes_list = s.all_recipes_list ++ l.map Prod.snd := by
  induction l with
  | nil => simp
  | cons kv rest ih =>
    intro s
    rw [List.foldl_cons, ih]
    simp [buildStep, processRecipe]

theorem processRecipe_catinv (s : RecipeSearchService) (r : Recipe)
    (h : ∀ kv ∈ s.category_index, List.Sublist kv.2 s.all_recipes_list) :
    ∀ kv ∈ (processRecipe s r).category_index, List.Sublist kv.2 (processRecipe s r).all_recipes_list := by
  intro kv hkv
  have hsub : ∀ l : List Recipe, List.Sublist l s.all_recipes_list →
      List.Sublist l (s.all_recipes_list ++ [r]) :=
    fun l hl => hl.trans (List.sublist_append_left _ _)
  simp only [processRecipe] at hkv ⊢
  unfold dictAppend at hkv
  cases hg : dictGet s.category_index r.category_zh with
  | some l0 =>
    rw [hg] at hkv
    rcases mem_dictSet hkv with hmem | heq
    · exact hsub _ (h kv hmem)
    · rw [heq]
      exact (h _ (dictGet_mem hg)).append (List.Sublist.refl [r])
  | none =>
    rw [hg] at hkv
    rcases List.mem_append.mp hkv with hmem | heq
    · exact hsub _ (h kv hmem)
    · simp only [List.mem_singleton] at heq
      rw [heq]
      simpa using (List.nil_sublist s.all_recipes_list).append (List.Sublist.refl [r])

theorem foldl_buildStep_catinv (l : Dict Recipe) :
    ∀ s : RecipeSearchService, (∀ kv ∈ s.category_index, List.Sublist kv.2 s.all_recipes_list) →
      ∀ kv ∈ (l.foldl buildStep s).category_index,
        List.Sublist kv.2 (l.foldl buildStep s).all_recipes_list := by
  induction l with
  | nil => exact fun s h => h
  | cons kv0 rest ih =>
    intro s h
    exact ih (processRecipe s kv0.2) (processRecipe_catinv s kv0.2 h)

theorem dictGet_foldl_setPools (shuffle : List Recipe → List Recipe)
    (items : Dict (List Recipe)) :
    ∀ (p0 : Dict (List Recipe)) (key : PyStr) (pool : List Recipe),
      dictGet (items.foldl
        (fun p kv => if kv.2 = [] then p else dictSet p kv.1 (shuffle kv.2)) p0) key
        = some pool →
      (∃ kv, kv ∈ items ∧ pool = shuffle kv.2) ∨ dictGet p0 key = some pool := by
  induction items with
  | nil => exact fun p0 key pool h => Or.inr h
  | cons kv0 rest ih =>
    intro p0 key pool h
    rw [List.foldl_cons] at h
    rcases ih _ key pool h with ⟨kv, hmem, hpool⟩ | hbase
    · exact Or.inl ⟨kv, List.mem_cons_of_mem _ hmem, hpool⟩
    · by_cases hz : kv0.2 = []
      · rw [if_pos hz] at hbase
        exact Or.inr hbase
      · rw [if_neg hz] at hbase
        by_cases hk : key = kv0.1
        · subst hk
          rw [dictGet_set_self] at hbase
          exact Or.inl ⟨kv0, by simp, ((Option.some.injEq _ _).mp hbase).symm⟩
        · rw [dictGet_set_ne _ _ _ hk] at hbase
          exact Or.inr hbase

theorem dictGet_buildRandomPools (shuffle : List Recipe → List Recipe)
    (s : RecipeSearchService) (key : PyStr) (pool : List Recipe)
    (h : dictGet (buildRandomPools shuffle s).random_pool key = some pool) :
    (∃ kv, kv ∈ s.category_index ∧ pool = shuffle kv.2) ∨
    pool = shuffle s.all_recipes_list ∨ dictGet s.random_pool key = some pool := by
  simp only [buildRandomPools] at h
  by_cases hall : s.all_recipes_list = []
  · rw [if_pos hall] at h
    rcases dictGet_foldl_setPools shuffle _ _ _ _ h with hcat | hbase
    · exact Or.inl hcat
    · exact Or.inr (Or.inr hbase)
  · rw [if_neg hall] at h
    by_cases hk : key = ([] : PyStr)
    · subst hk
      rw [dictGet_set_self] at h
      exact Or.inr (Or.inl ((Option.some.injEq _ _).mp h).symm)
    · rw [dictGet_set_ne _ _ _ hk] at h
      rcases dictGet_foldl_setPools shuffle _ _ _ _ h with hcat | hbase
      · exact Or.inl hcat
      · exact Or.inr (Or.inr hbase)

theorem nodup_dict_values (recipes : Dict Recipe)
    (Hkeys : (recipes.map Prod.fst).Nodup)
    (Hkv : ∀ p ∈ recipes, p.1 = p.2.name) : (recipes.map Prod.snd).Nodup := by
  have hmap : (recipes.map Prod.snd).map Recipe.name = recipes.map Prod.fst := by
    rw [List.map_map]
    exact List.map_congr_left (fun p hp => (Hkv p hp).symm)
  exact List.Nodup.of_map Recipe.name (hmap ▸ Hkeys)

theorem nodup_of_subperm {l₁ l₂ : List Recipe} (h : List.Subperm l₁ l₂) (hnd : l₂.Nodup) :
    l₁.Nodup := by
  obtain ⟨l, hp, hs⟩ := h
  exact hp.nodup_iff.mp (hnd.sublist hs)

/-- Every pool stored in a built index is duplicate-free (it is a shuffle of
either one category's record list or the full record list, both without
duplicates when record names are unique keys). -/
theorem builtPool_nodup (recipes : Dict Recipe) (cfg : RecipeConfig)
    (shuffle : List Recipe → List Recipe)
    (Hkeys : (recipes.map Prod.fst).Nodup)
    (Hkv : ∀ p ∈ recipes, p.1 = p.2.name)
    (Hsh : ∀ l, List.Perm (shuffle l) l) :
    ∀ key pool, dictGet (mkSearchService recipes cfg shuffle).random_pool key = some pool →
      pool.Nodup := by
  intro key pool hp
  by_cases hr : recipes = []
  · rw [mkSearchService, buildIndexes] at hp
    simp [hr] at hp
  · rw [mkSearchService, buildIndexes_foldl shuffle _ (by simpa using hr)] at hp
    have hvals : (recipes.map Prod.snd).Nodup := nodup_dict_values recipes Hkeys Hkv
    have hall : (recipes.foldl buildStep
        { config := cfg, recipes := recipes, name_index := [], category_index := [],
          keyword_index := [], random_pool := [],
          all_recipes_list := [] }).all_recipes_list = recipes.map Prod.snd := by
      rw [foldl_buildStep_all_list]
      simp
    have hcat := foldl_buildStep_catinv recipes
      { config := cfg, recipes := recipes, name_index := [], category_index := [],
        keyword_index := [], random_pool := [], all_recipes_list := [] }
      (by intro kv hkv; simp at hkv)
    have hrp : (recipes.foldl buildStep
        { config := cfg, recipes := recipes, name_index := [], category_index := [],
          keyword_index := [], random_pool := [],
          all_recipes_list := [] }).random_pool = [] :=
      (foldl_buildStep_const_fields recipes _).2.2
    rcases dictGet_buildRandomPools shuffle _ key pool hp with ⟨kv, hmem, rfl⟩ | hrest
    · have hsub := hcat kv hmem
      rw [hall] at hsub
      exact (Hsh kv.2).nodup_iff.mpr (hvals.sublist hsub)
    · rcases hrest with rfl | hold
      · rw [hall]
        exact (Hsh (recipes.map Prod.snd)).nodup_iff.mpr hvals
      · rw [hrp] at hold
        simp at hold

theorem mkSearchService_config (recipes : Dict Recipe) (cfg : RecipeConfig)
    (shuffle : List Recipe → List Recipe) :
    (mkSearchService recipes cfg shuffle).config = cfg := by
  by_cases hr : recipes = []
  · rw [mkSearchService, buildIndexes]
    simp [hr]
  · rw [mkSearchService, buildIndexes_foldl shuffle _ (by simpa using hr)]
    have := (foldl_buildStep_const_fields recipes
      { config := cfg, recipes := recipes, name_index := [], category_index := [],
        keyword_index := [], random_pool := [], all_recipes_list := [] }).1
    simpa [buildRandomPools] using this

/-- Claim C5: random bounds.  For a built index and a non-empty selected pool,
`GetRandomRecipes(count)` returns exactly `min(clamp(count), pool_size)`
records, without duplicates, and returns the whole pre-shuffled pool (each
record once) whenever the clamped count reaches the pool size.  `shuffle` is
any permutation and `sample` any selection without replacement of the
requested length, as in the source's `random.shuffle`/`random.sample`. -/
theorem claim_C5_random_bounds (recipes : Dict Recipe) (cfg : RecipeConfig)
    (shuffle : List Recipe → List Recipe) (sample : List Recipe → Nat → List Recipe)
    (count : Nat) (category_zh : Option PyStr) (svc : RecipeSearchService)
    (pool : List Recipe) (c : Nat)
    (hsvc : svc = mkSearchService recipes cfg shuffle)
    (Hkeys : (recipes.map Prod.fst).Nodup)
    (Hkv : ∀ p ∈ recipes, p.1 = p.2.name)
    (Hsh : ∀ l, List.Perm (shuffle l) l)
    (Hsample : ∀ (l : List Recipe) (n : Nat), n ≤ l.length →
      (sample l n).length = n ∧ List.Subperm (sample l n) l)
    (hc : c = max svc.config.min_random_count (min count svc.config.max_random_count))
    (Hpool : dictGet svc.random_pool (randomPoolKey svc category_zh) = some pool)
    (Hne : pool ≠ []) :
    (get_random_recipes sample svc count category_zh).length = min c pool.length ∧
    (get_random_recipes sample svc count category_zh).Nodup ∧
    (pool.length ≤ c → get_random_recipes sample svc count category_zh = pool) := by
  have hpoolnd : pool.Nodup := by
    rw [hsvc] at Hpool
    exact builtPool_nodup recipes cfg shuffle Hkeys Hkv Hsh _ pool Hpool
  have hunfold : get_random_recipes sample svc count category_zh =
      (if pool = [] then []
       else if pool.length ≤ c then pool
       else sample pool c) := by
    rw [get_random_recipes, ← hc, Hpool]
  rw [hunfold, if_neg Hne]
  by_cases hle : pool.length ≤ c
  · rw [if_pos hle]
    exact ⟨by rw [Nat.min_eq_right hle], hpoolnd, fun _ => rfl⟩
  · rw [if_neg hle]
    have hcle : c ≤ pool.length := Nat.le_of_lt (Nat.lt_of_not_le hle)
    obtain ⟨hlen, hsp⟩ := Hsample pool c hcle
    exact ⟨by rw [hlen, Nat.min_eq_left hcle], nodup_of_subperm hsp hpoolnd,
           fun h => absurd h hle⟩

/-! ### Claim C4: relevance ordering -/

theorem sortByRelevance_sorted (kwl : PyStr) (l : List Recipe) :
    (sortByRelevance kwl l).Pairwise
      (fun a b => calculate_relevance a.name kwl ≤ calculate_relevance b.name kwl) := by
  haveI hTot : IsTotal Recipe
      (fun a b => calculate_relevance a.name kwl ≤ calculate_relevance b.name kwl) :=
    ⟨fun a b => Nat.le_total _ _⟩
  haveI hTr : IsTrans Recipe
      (fun a b => calculate_relevance a.name kwl ≤ calculate_relevance b.name kwl) :=
    ⟨fun _ _ _ => Nat.le_trans⟩
  exact List.sorted_insertionSort _ l

/-- Claim C4: `SearchByKeyword` sorts its matches ascending by the relevance
score of `_calculate_relevance` (0 on exact equality with the keyword, 1 on a
prefix match, `2 + first occurrence index` on a substring match, 1000
otherwise), for every service state, keyword and page size; and on the spec's
concrete dataset, searching `"鸡"` returns `"鸡"` (score 0) before `"鸡蛋"`
(score 1) before `"西红柿炒鸡蛋"` (score 2 + 4). -/
theorem claim_C4_relevance_ordering :
    (∀ (svc : RecipeSearchService) (kw : PyStr) (mr : Option Nat),
      (search_by_keyword svc kw mr).recipes.Pairwise
        (fun a b => calculate_relevance a.name (pyLower kw)
          ≤ calculate_relevance b.name (pyLower kw))) ∧
    ((search_by_keyword svcChicken (str "鸡") none).recipes.map Recipe.name
       = [str "鸡", str "鸡蛋", str "西红柿炒鸡蛋"]) ∧
    calculate_relevance (str "鸡") (str "鸡") = 0 ∧
    calculate_relevance (str "鸡蛋") (str "鸡") = 1 ∧
    calculate_relevance (str "西红柿炒鸡蛋") (str "鸡") = 2 + 4 := by
  refine ⟨?_, by decide, by decide, by decide, by decide⟩
  intro svc kw mr
  rw [search_by_keyword]
  by_cases hb : pyStrip kw = []
  · simp [hb]
  · simp only [if_neg hb]
    exact List.Pairwise.sublist (List.take_sublist _ _) (sortByRelevance_sorted (pyLower kw) _)

theorem claim_C5_witness :
    (get_random_recipes (fun l n => l.take n) svcTwo 5 none).length
      = min (max 1 (min 5 10)) [rEgg, rApple].length ∧
    (get_random_recipes (fun l n => l.take n) svcTwo 5 none).Nodup ∧
    ([rEgg, rApple].length ≤ max 1 (min 5 10) →
      get_random_recipes (fun l n => l.take n) svcTwo 5 none = [rEgg, rApple]) :=
  claim_C5_random_bounds [(str "egg", rEgg), (str "apple pie", rApple)] {} id
    (fun l n => l.take n) 5 none svcTwo [rEgg, rApple] (max 1 (min 5 10))
    rfl (by decide) (by decide) (fun l => List.Perm.refl l)
    (fun l n h => ⟨by simpa using h, (List.take_sublist n l).subperm⟩)
    (by decide) (by decide) (by decide)

/-! ### String lemmas (claim C2) -/

theorem pyLower_length (s : PyStr) : (pyLower s).length = s.length := List.length_map s _

theorem pyStrip_eq_nil_iff (s : PyStr) : pyStrip s = [] ↔ ∀ c ∈ s, isPySpace c := by
  unfold pyStrip
  rw [List.reverse_eq_nil_iff, List.dropWhile_eq_nil_iff]
  constructor
  · intro h c hc
    by_cases hdrop : c ∈ s.dropWhile isPySpace
    · exact h c (by simpa using hdrop)
    · have hsplit : s.takeWhile isPySpace ++ s.dropWhile isPySpace = s :=
        List.takeWhile_append_dropWhile isPySpace s
      rw [← hsplit] at hc
      rcases List.mem_append.mp hc with htake | hd
      · exact List.mem_takeWhile_imp htake
      · exact absurd hd hdrop
  · intro h c hc
    exact h c (List.dropWhile_subset _ (by simpa using hc))

theorem isPySpace_pyCharLower (c : Nat) : isPySpace (pyCharLower c) = isPySpace c := by
  by_cases h : 65 ≤ c ∧ c ≤ 90
  · obtain ⟨h1, h2⟩ := h
    have hl : isPySpace (c + 32) = false := by
      simp only [isPySpace, Bool.or_eq_false_iff, decide_eq_false_iff_not]
      omega
    have hr : isPySpace c = false := by
      simp only [isPySpace, Bool.or_eq_false_iff, decide_eq_false_iff_not]
      omega
    simp [pyCharLower, h1, h2, hl, hr]
  · simp [pyCharLower, h]

theorem pyStrip_pyLower_ne_nil {s : PyStr} (h : pyStrip s ≠ []) : pyStrip (pyLower s) ≠ [] := by
  rw [Ne, pyStrip_eq_nil_iff] at h ⊢
  intro hall
  apply h
  intro c hc
  have hm := hall (pyCharLower c) (List.mem_map_of_mem _ hc)
  rwa [isPySpace_pyCharLower] at hm

theorem pyContains_length_le {s sub : PyStr} (h : pyContains s sub = true) :
    sub.length ≤ s.length := by
  induction s with
  | nil =>
    simp only [pyContains, decide_eq_true_eq] at h
    simp [h]
  | cons c rest ih =>
    simp only [pyContains, Bool.or_eq_true] at h
    rcases h with h | h
    · simp only [pyStartsWith, decide_eq_true_eq] at h
      have := congrArg List.length h
      simp only [List.length_take] at this
      omega
    · have := ih h
      simp only [List.length_cons]
      omega

/-! ### Keyword registration machinery (claim C2) -/

theorem keyRegistered_dictSetAdd_self (d : Dict (List PyStr)) (k n : PyStr) :
    keyRegistered (dictSetAdd d k n) k n := by
  unfold keyRegistered dictSetAdd
  cases hg : dictGet d k with
  | some s =>
    simp only [hg]
    by_cases hn : n ∈ s
    · rw [if_pos hn]
      exact ⟨s, hg, hn⟩
    · rw [if_neg hn]
      exact ⟨s ++ [n], dictGet_set_self _ _ _, by simp⟩
  | none =>
    simp only [hg]
    refine ⟨[n], ?_, by simp⟩
    rw [dictGet_append_of_none _ hg]
    simp

theorem keyRegistered_dictSetAdd_mono {d : Dict (List PyStr)} {k n : PyStr} (k' n' : PyStr)
    (h : keyRegistered d k n) : keyRegistered (dictSetAdd d k' n') k n := by
  obtain ⟨s, hg, hn⟩ := h
  unfold keyRegistered dictSetAdd
  cases hg' : dictGet d k' with
  | some s' =>
    simp only [hg']
    by_cases hmem : n' ∈ s'
    · rw [if_pos hmem]
      exact ⟨s, hg, hn⟩
    · rw [if_neg hmem]
      by_cases hk : k = k'
      · subst hk
        have hs : s = s' := by
          rw [hg] at hg'
          exact (Option.some.injEq _ _).mp hg'
        exact ⟨s' ++ [n'], dictGet_set_self _ _ _, by simp [← hs, hn]⟩
      · rw [dictGet_set_ne _ _ _ hk]
        exact ⟨s, hg, hn⟩
  | none =>
    simp only [hg']
    exact ⟨s, dictGet_append_of_some _ hg, hn⟩

theorem foldl_keyRegistered_mono {β : Type} {k n : PyStr}
    (g : Dict (List PyStr) → β → Dict (List PyStr))
    (hg : ∀ d b, keyRegistered d k n → keyRegistered (g d b) k n) :
    ∀ (l : List β) (d : Dict (List PyStr)),
      keyRegistered d k n → keyRegistered (l.foldl g d) k n := by
  intro l
  induction l with
  | nil => exact fun d h => h
  | cons b rest ih => exact fun d h => ih (g d b) (hg d b h)

theorem foldl_keyRegistered_estab {β : Type} {k n : PyStr}
    (g : Dict (List PyStr) → β → Dict (List PyStr))
    (hg : ∀ d b, keyRegistered d k n → keyRegistered (g d b) k n)
    {l : List β} {b₀ : β} (hb : b₀ ∈ l)
    (hest : ∀ d, keyRegistered (g d b₀) k n) :
    ∀ d, keyRegistered (l.foldl g d) k n := by
  obtain ⟨l₁, l₂, rfl⟩ := List.append_of_mem hb
  intro d
  rw [List.foldl_append, List.foldl_cons]
  exact foldl_keyRegistered_mono g hg l₂ _ (hest _)

theorem addKeywordChar_mono (name : PyStr) {d : Dict (List PyStr)} {k n : PyStr} (c : Nat)
    (h : keyRegistered d k n) : keyRegistered (addKeywordChar name d c) k n := by
  unfold addKeywordChar
  by_cases hc : pyStrip [c] = []
  · rwa [if_pos hc]
  · rw [if_neg hc]
    exact keyRegistered_dictSetAdd_mono _ _ h

theorem addKeywordChar_self (name : PyStr) (d : Dict (List PyStr)) {c : Nat}
    (hc : ¬ pyStrip [c] = []) : keyRegistered (addKeywordChar name d c) [c] name := by
  unfold addKeywordChar
  rw [if_neg hc]
  exact keyRegistered_dictSetAdd_self _ _ _

theorem addKeywordGramAt_mono (nm name : PyStr) {d : Dict (List PyStr)} {k n : PyStr}
    (i len : Nat) (h : keyRegistered d k n) :
    keyRegistered (addKeywordGramAt nm name d i len) k n := by
  unfold addKeywordGramAt
  by_cases h1 : i + len ≤ nm.length
  · rw [if_pos h1]
    by_cases h2 : pyStrip ((nm.drop i).take len) = []
    · rwa [if_pos h2]
    · rw [if_neg h2]
      exact keyRegistered_dictSetAdd_mono _ _ h
  · rwa [if_neg h1]

theorem addKeywordGramAt_self (nm name : PyStr) (d : Dict (List PyStr)) {i len : Nat}
    (h1 : i + len ≤ nm.length) (h2 : ¬ pyStrip ((nm.drop i).take len) = []) :
    keyRegistered (addKeywordGramAt nm name d i len) ((nm.drop i).take len) name := by
  unfold addKeywordGramAt
  rw [if_pos h1, if_neg h2]
  exact keyRegistered_dictSetAdd_self _ _ _

theorem addRecipeKeywords_mono {d : Dict (List PyStr)} {k n : PyStr} (r : Recipe)
    (h : keyRegistered d k n) : keyRegistered (addRecipeKeywords d r) k n := by
  unfold addRecipeKeywords
  apply foldl_keyRegistered_mono
    (fun acc i => [2, 3].foldl
      (fun acc2 len => addKeywordGramAt (pyLower r.name) r.name acc2 i len) acc)
  · intro d' i h'
    exact addKeywordGramAt_mono _ _ i 3 (addKeywordGramAt_mono _ _ i 2 h')
  · exact foldl_keyRegistered_mono (addKeywordChar r.name)
      (fun d' c h' => addKeywordChar_mono r.name c h') _ _ h

/-- Every non-blank token of length 1 to 3 occurring in the lowercased dish
name gets the dish name registered under it by `_build_keyword_index`. -/
theorem addRecipeKeywords_registered (d : Dict (List PyStr)) (r : Recipe) (kw : PyStr)
    (h3 : kw.length ≤ 3) (hs : pyStrip kw ≠ [])
    (hocc : ∃ i, i + kw.length ≤ (pyLower r.name).length ∧
      ((pyLower r.name).drop i).take kw.length = kw) :
    keyRegistered (addRecipeKeywords d r) kw r.name := by
  obtain ⟨i, hile, hkw⟩ := hocc
  have hmono : ∀ (d' : Dict (List PyStr)) (j : Nat), keyRegistered d' kw r.name →
      keyRegistered ([2, 3].foldl
        (fun acc2 len => addKeywordGramAt (pyLower r.name) r.name acc2 j len) d') kw r.name :=
    fun d' j h' => addKeywordGramAt_mono _ _ j 3 (addKeywordGramAt_mono _ _ j 2 h')
  unfold addRecipeKeywords
  match kw, h3, hs, hile, hkw with
  | [], _, hs, _, _ => exact absurd rfl hs
  | [a], _, hs, hile, hkw =>
    have hkw1 : ((pyLower r.name).drop i).take 1 = [a] := by simpa using hkw
    apply foldl_keyRegistered_mono _ hmono
    have hmem : a ∈ pyLower r.name := by
      have h1' : a ∈ ((pyLower r.name).drop i).take 1 := by
        rw [hkw1]
        simp
      exact List.drop_subset _ _ (List.take_subset _ _ h1')
    exact foldl_keyRegistered_estab (addKeywordChar r.name)
      (fun d' c h' => addKeywordChar_mono r.name c h') hmem
      (fun d' => addKeywordChar_self r.name d' hs) d
  | [a, b], _, hs, hile, hkw =>
    have hkw2 : ((pyLower r.name).drop i).take 2 = [a, b] := by simpa using hkw
    have hile2 : i + 2 ≤ (pyLower r.name).length := by simpa using hile
    have hi : i ∈ List.range (pyLower r.name).length := by
      rw [List.mem_range]
      omega
    apply foldl_keyRegistered_estab _ hmono hi
    intro d'
    show keyRegistered (addKeywordGramAt (pyLower r.name) r.name
      (addKeywordGramAt (pyLower r.name) r.name d' i 2) i 3) [a, b] r.name
    apply addKeywordGramAt_mono _ _ i 3
    have h2 := addKeywordGramAt_self (pyLower r.name) r.name d' hile2
      (show ¬ pyStrip (((pyLower r.name).drop i).take 2) = [] by rw [hkw2]; exact hs)
    rwa [hkw2] at h2
  | [a, b, c], _, hs, hile, hkw =>
    have hkw3 : ((pyLower r.name).drop i).take 3 = [a, b, c] := by simpa using hkw
    have hile3 : i + 3 ≤ (pyLower r.name).length := by simpa using hile
    have hi : i ∈ List.range (pyLower r.name).length := by
      rw [List.mem_range]
      omega
    apply foldl_keyRegistered_estab _ hmono hi
    intro d'
    show keyRegistered (addKeywordGramAt (pyLower r.name) r.name
      (addKeywordGramAt (pyLower r.name) r.name d' i 2) i 3) [a, b, c] r.name
    have h2 := addKeywordGramAt_self (pyLower r.name) r.name
      (addKeywordGramAt (pyLower r.name) r.name d' i 2) hile3
      (show ¬ pyStrip (((pyLower r.name).drop i).take 3) = [] by rw [hkw3]; exact hs)
    rwa [hkw3] at h2

/-! ### Matched-set membership (claim C2) -/

theorem mem_setUpdate_of_mem_left (s : List PyStr) :
    ∀ (acc : List PyStr) (n : PyStr), n ∈ acc → n ∈ setUpdate acc s := by
  induction s with
  | nil => exact fun acc n h => h
  | cons x rest ih =>
    intro acc n h
    show n ∈ setUpdate (if x ∈ acc then acc else acc ++ [x]) rest
    apply ih
    by_cases hx : x ∈ acc
    · rw [if_pos hx]
      exact h
    · rw [if_neg hx]
      exact List.mem_append_left _ h

theorem mem_setUpdate_of_mem_right (s : List PyStr) :
    ∀ (acc : List PyStr) (n : PyStr), n ∈ s → n ∈ setUpdate acc s := by
  induction s with
  | nil =>
    intro acc n h
    simp at h
  | cons x rest ih =>
    intro acc n h
    show n ∈ setUpdate (if x ∈ acc then acc else acc ++ [x]) rest
    rcases List.mem_cons.mp h with rfl | hr
    · apply mem_setUpdate_of_mem_left
      by_cases hx : n ∈ acc
      · rw [if_pos hx]
        exact hx
      · rw [if_neg hx]
        simp
    · exact ih _ n hr

theorem mem_scanFold_of_mem (kwl : PyStr) (items : Dict (List PyStr)) :
    ∀ (acc : List PyStr) (n : PyStr), n ∈ acc →
      n ∈ items.foldl
        (fun acc kv => if pyContains kv.1 kwl then setUpdate acc kv.2 else acc) acc := by
  induction items with
  | nil => exact fun acc n h => h
  | cons kv rest ih =>
    intro acc n h
    rw [List.foldl_cons]
    apply ih
    by_cases hc : pyContains kv.1 kwl
    · rw [if_pos hc]
      exact mem_setUpdate_of_mem_left _ _ _ h
    · rwa [if_neg hc]

theorem mem_matchedNamesOf {idx : Dict (List PyStr)} {kwl n : PyStr}
    (h : keyRegistered idx kwl n) : n ∈ matchedNamesOf idx kwl := by
  obtain ⟨s, hg, hn⟩ := h
  unfold matchedNamesOf
  simp only [hg]
  exact mem_scanFold_of_mem kwl idx _ n (mem_setUpdate_of_mem_right s [] n hn)

theorem resolve_fold_grow (recipes : Dict Recipe) :
    ∀ (names : List PyStr) (acc : List Recipe × List PyStr) (r : Recipe), r ∈ acc.1 →
      r ∈ (names.foldl (fun (p : List Recipe × List PyStr) n =>
        if n ∈ p.2 then p
        else
          match dictGet recipes n with
          | some r => (p.1 ++ [r], p.2 ++ [n])
          | none => p) acc).1 := by
  intro names
  induction names with
  | nil => exact fun acc r h => h
  | cons x rest ih =>
    intro acc r h
    rw [List.foldl_cons]
    apply ih
    by_cases hx : x ∈ acc.2
    · rw [if_pos hx]
      exact h
    · rw [if_neg hx]
      cases hg : dictGet recipes x with
      | some r' =>
        simp only [hg]
        exact List.mem_append_left _ h
      | none =>
        simpa only [hg] using h

theorem resolve_fold_mem (recipes : Dict Recipe) (n : PyStr) (r : Recipe)
    (hr : dictGet recipes n = some r) :
    ∀ (names : List PyStr) (acc : List Recipe × List PyStr),
      (∀ m ∈ acc.2, ∀ r', dictGet recipes m = some r' → r' ∈ acc.1) →
      n ∈ names →
      r ∈ (names.foldl (fun (p : List Recipe × List PyStr) n =>
        if n ∈ p.2 then p
        else
          match dictGet recipes n with
          | some r => (p.1 ++ [r], p.2 ++ [n])
          | none => p) acc).1 := by
  intro names
  induction names with
  | nil =>
    intro acc _ h
    simp at h
  | cons x rest ih =>
    intro acc hinv hn
    rw [List.foldl_cons]
    rcases List.mem_cons.mp hn with rfl | hrest
    · by_cases hx : n ∈ acc.2
      · rw [if_pos hx]
        exact resolve_fold_grow recipes rest acc r (hinv n hx r hr)
      · rw [if_neg hx]
        simp only [hr]
        exact resolve_fold_grow recipes rest _ r (List.mem_append_right _ (by simp))
    · refine ih _ ?_ hrest
      by_cases hx : x ∈ acc.2
      · rw [if_pos hx]
        exact hinv
      · rw [if_neg hx]
        cases hg : dictGet recipes x with
        | some r'' =>
          simp only [hg]
          intro m hm r' hr'
          rcases List.mem_append.mp hm with hmem | heq
          · exact List.mem_append_left _ (hinv m hmem r' hr')
          · simp only [List.mem_singleton] at heq
            subst heq
            rw [hg] at hr'
            have hrr : r'' = r' := (Option.some.injEq _ _).mp hr'
            exact List.mem_append_right _ (by simp [hrr])
        | none =>
          simpa only [hg] using hinv

theorem mem_resolveNames {recipes : Dict Recipe} {names : List PyStr} {n : PyStr} {r : Recipe}
    (hn : n ∈ names) (hr : dictGet recipes n = some r) : r ∈ resolveNames recipes names := by
  unfold resolveNames
  exact resolve_fold_mem recipes n r hr names ([], []) (by intro m hm; simp at hm) hn

theorem mem_sortByRelevance {kwl : PyStr} {l : List Recipe} {r : Recipe} (h : r ∈ l) :
    r ∈ sortByRelevance kwl l :=
  ((List.perm_insertionSort _ l).mem_iff).mpr h

theorem foldl_buildStep_keyword_index (l : Dict Recipe) :
    ∀ s : RecipeSearchService, (l.foldl buildStep s).keyword_index
      = l.foldl (fun d kv => addRecipeKeywords d kv.2) s.keyword_index := by
  induction l with
  | nil => exact fun s => rfl
  | cons kv rest ih =>
    intro s
    rw [List.foldl_cons, List.foldl_cons, ih]
    rfl

theorem buildRandomPools_keyword_index (shuffle : List Recipe → List Recipe)
    (s : RecipeSearchService) : (buildRandomPools shuffle s).keyword_index = s.keyword_index :=
  rfl

theorem mkSearchService_recipes (recipes : Dict Recipe) (cfg : RecipeConfig)
    (shuffle : List Recipe → List Recipe) :
    (mkSearchService recipes cfg shuffle).recipes = recipes := by
  by_cases hr : recipes = []
  · rw [mkSearchService, buildIndexes]
    simp [hr]
  · rw [mkSearchService, buildIndexes_foldl shuffle _ (by simpa using hr)]
    have h := (foldl_buildStep_const_fields recipes
      { config := cfg, recipes := recipes, name_index := [], category_index := [],
        keyword_index := [], random_pool := [], all_recipes_list := [] }).2.1
    simpa [buildRandomPools] using h

theorem built_keyword_registered (recipes : Dict Recipe) (cfg : RecipeConfig)
    (shuffle : List Recipe → List Recipe) {k : PyStr} {r : Recipe}
    (hmem : (k, r) ∈ recipes) {kw : PyStr} (h3 : kw.length ≤ 3) (hs : pyStrip kw ≠ [])
    (hocc : ∃ i, i + kw.length ≤ (pyLower r.name).length ∧
      ((pyLower r.name).drop i).take kw.length = kw) :
    keyRegistered (mkSearchService recipes cfg shuffle).keyword_index kw r.name := by
  have hr : ¬ recipes = [] := by
    intro h
    rw [h] at hmem
    simp at hmem
  rw [mkSearchService, buildIndexes_foldl shuffle _ (by simpa using hr),
    buildRandomPools_keyword_index, foldl_buildStep_keyword_index]
  exact foldl_keyRegistered_estab (fun d kv => addRecipeKeywords d kv.2)
    (fun d kv h => addRecipeKeywords_mono kv.2 h) hmem
    (fun d => addRecipeKeywords_registered d r kw h3 hs hocc) []

/-! ### Keyword-index keys are at most three code points long (claim C2) -/

theorem mem_keys_dictSet {α : Type} {d : Dict α} {k q : PyStr} {v : α}
    (h : q ∈ dictKeys (dictSet d k v)) : q ∈ dictKeys d ∨ q = k := by
  rcases List.mem_map.mp h with ⟨e, he, rfl⟩
  rcases mem_dictSet he with h1 | h1
  · exact Or.inl (List.mem_map_of_mem _ h1)
  · exact Or.inr (by rw [h1])

theorem mem_keys_dictSetAdd {d : Dict (List PyStr)} {k x q : PyStr}
    (h : q ∈ dictKeys (dictSetAdd d k x)) : q ∈ dictKeys d ∨ q = k := by
  unfold dictSetAdd at h
  cases hg : dictGet d k with
  | some s =>
    simp only [hg] at h
    by_cases hx : x ∈ s
    · rw [if_pos hx] at h
      exact Or.inl h
    · rw [if_neg hx] at h
      exact mem_keys_dictSet h
  | none =>
    simp only [hg] at h
    simp only [dictKeys, List.map_append, List.map_cons, List.map_nil] at h
    rcases List.mem_append.mp h with h1 | h1
    · exact Or.inl h1
    · simp only [List.mem_singleton] at h1
      exact Or.inr h1

theorem keysBound_foldl {β : Type} (g : Dict (List PyStr) → β → Dict (List PyStr))
    (hg : ∀ d b, (∀ q ∈ dictKeys d, q.length ≤ 3) →
      ∀ q ∈ dictKeys (g d b), q.length ≤ 3) :
    ∀ (l : List β) (d : Dict (List PyStr)), (∀ q ∈ dictKeys d, q.length ≤ 3) →
      ∀ q ∈ dictKeys (l.foldl g d), q.length ≤ 3 := by
  intro l
  induction l with
  | nil => exact fun d h => h
  | cons b rest ih => exact fun d h => ih (g d b) (hg d b h)

theorem keysBound_addKeywordChar (name : PyStr) (d : Dict (List PyStr)) (c : Nat)
    (hd : ∀ q ∈ dictKeys d, q.length ≤ 3) :
    ∀ q ∈ dictKeys (addKeywordChar name d c), q.length ≤ 3 := by
  intro q hq
  unfold addKeywordChar at hq
  by_cases hc : pyStrip [c] = []
  · rw [if_pos hc] at hq
    exact hd q hq
  · rw [if_neg hc] at hq
    rcases mem_keys_dictSetAdd hq with h1 | rfl
    · exact hd q h1
    · simp

theorem keysBound_addKeywordGramAt (nm name : PyStr) (d : Dict (List PyStr)) (i len : Nat)
    (hlen : len ≤ 3) (hd : ∀ q ∈ dictKeys d, q.length ≤ 3) :
    ∀ q ∈ dictKeys (addKeywordGramAt nm name d i len), q.length ≤ 3 := by
  intro q hq
  unfold addKeywordGramAt at hq
  by_cases h1 : i + len ≤ nm.length
  · rw [if_pos h1] at hq
    by_cases h2 : pyStrip ((nm.drop i).take len) = []
    · rw [if_pos h2] at hq
      exact hd q hq
    · rw [if_neg h2] at hq
      rcases mem_keys_dictSetAdd hq with h3 | rfl
      · exact hd q h3
      · have := List.length_take len (nm.drop i)
        omega
  · rw [if_neg h1] at hq
    exact hd q hq

theorem keysBound_addRecipeKeywords (d : Dict (List PyStr)) (r : Recipe)
    (hd : ∀ q ∈ dictKeys d, q.length ≤ 3) :
    ∀ q ∈ dictKeys (addRecipeKeywords d r), q.length ≤ 3 := by
  unfold addRecipeKeywords
  apply keysBound_foldl
    (fun acc i => [2, 3].foldl
      (fun acc2 len => addKeywordGramAt (pyLower r.name) r.name acc2 i len) acc)
  · intro d' i h'
    exact keysBound_addKeywordGramAt _ _ _ i 3 (by omega)
      (keysBound_addKeywordGramAt _ _ _ i 2 (by omega) h')
  · exact keysBound_foldl (addKeywordChar r.name)
      (fun d' c h' => keysBound_addKeywordChar r.name d' c h') _ d hd

theorem built_keyword_keys_bound (recipes : Dict Recipe) (cfg : RecipeConfig)
    (shuffle : List Recipe → List Recipe) :
    ∀ q ∈ dictKeys (mkSearchService recipes cfg shuffle).keyword_index, q.length ≤ 3 := by
  by_cases hr : recipes = []
  · rw [mkSearchService, buildIndexes]
    simp [hr, dictKeys]
  · rw [mkSearchService, buildIndexes_foldl shuffle _ (by simpa using hr),
      buildRandomPools_keyword_index, foldl_buildStep_keyword_index]
    exact keysBound_foldl (fun d kv => addRecipeKeywords d kv.2)
      (fun d kv hd => keysBound_addRecipeKeywords d kv.2 hd) recipes []
      (by intro q hq; simp [dictKeys] at hq)

theorem scanFold_id (kwl : PyStr) :
    ∀ (items : Dict (List PyStr)) (acc : List PyStr),
      (∀ kv ∈ items, pyContains kv.1 kwl = false) →
      items.foldl (fun acc kv => if pyContains kv.1 kwl then setUpdate acc kv.2 else acc) acc
        = acc := by
  intro items
  induction items with
  | nil => exact fun acc _ => rfl
  | cons kv rest ih =>
    intro acc h
    rw [List.foldl_cons]
    have hkv : pyContains kv.1 kwl = false := h kv (by simp)
    rw [if_neg (by simp [hkv])]
    exact ih acc (fun kv' h' => h kv' (List.mem_cons_of_mem _ h'))

theorem matchedNamesOf_nil_of_long {idx : Dict (List PyStr)} {kwl : PyStr}
    (hb : ∀ q ∈ dictKeys idx, q.length ≤ 3) (hlong : 3 < kwl.length) :
    matchedNamesOf idx kwl = [] := by
  have hg : dictGet idx kwl = none := by
    cases hg : dictGet idx kwl with
    | none => rfl
    | some s =>
      have := hb kwl (dictGet_isSome_mem_keys (by simp [hg]))
      omega
  unfold matchedNamesOf
  simp only [hg]
  apply scanFold_id
  intro kv hkv
  cases hc : pyContains kv.1 kwl with
  | false => rfl
  | true =>
    have h1 := pyContains_length_le hc
    have h2 := hb kv.1 (List.mem_map_of_mem _ hkv)
    omega

/-! ### Claim C2: keyword matching and the 3-code-point token limit -/

/-- Claim C2 is false on the code: the keyword index holds only tokens of
length at most 3 (single characters plus 2- and 3-grams), so a keyword longer
than 3 code points has no exact entry and is contained in no indexed token.
Concretely, the dish `"abcd"` contains the keyword `"abcd"` (length 4) as a
substring of its lowercased name, yet the search returns no match at all,
where the claim requires the dish to be in the match set. -/
theorem claim_C2_counterexample :
    3 < (str "abcd").length ∧
    ((pyLower rAbcd.name).drop 0).take (str "abcd").length = pyLower (str "abcd") ∧
    matchedNamesOf svcAbcd.keyword_index (pyLower (str "abcd")) = [] ∧
    searchMatches svcAbcd (str "abcd") = [] ∧
    (search_by_keyword svcAbcd (str "abcd") none).recipes = [] ∧
    (search_by_keyword svcAbcd (str "abcd") none).total_count = 0 := by
  refine ⟨by decide, by decide, by decide, by decide, by decide, by decide⟩

/-- Claim C2 amended: keyword matching is expansive for keywords of length at
most 3: for every built index, every record of the build input, and every
non-blank keyword of length 1 to 3 whose lowercased form occurs as a
contiguous substring of the record's lowercased name, the record's name is in
the collected match set and the record itself is among the search matches.
Keywords of length greater than 3 never match: the match set is empty and the
search returns an empty result, because every indexed token has length at
most 3 and therefore can neither equal nor contain the keyword. -/
theorem claim_C2_keyword_matching :
    (∀ (recipes : Dict Recipe) (cfg : RecipeConfig) (shuffle : List Recipe → List Recipe)
       (k : PyStr) (r : Recipe) (kw : PyStr),
       (k, r) ∈ recipes →
       dictGet recipes r.name = some r →
       kw.length ≤ 3 →
       pyStrip kw ≠ [] →
       (∃ i, i + kw.length ≤ (pyLower r.name).length ∧
         ((pyLower r.name).drop i).take kw.length = pyLower kw) →
       r.name ∈ matchedNamesOf (mkSearchService recipes cfg shuffle).keyword_index
         (pyLower kw) ∧
       r ∈ searchMatches (mkSearchService recipes cfg shuffle) kw) ∧
    (∀ (recipes : Dict Recipe) (cfg : RecipeConfig) (shuffle : List Recipe → List Recipe)
       (kw : PyStr) (mr : Option Nat), 3 < kw.length →
       searchMatches (mkSearchService recipes cfg shuffle) kw = [] ∧
       (search_by_keyword (mkSearchService recipes cfg shuffle) kw mr).recipes = [] ∧
       (search_by_keyword (mkSearchService recipes cfg shuffle) kw mr).total_count = 0) := by
  constructor
  · intro recipes cfg shuffle k r kw hkr hget h3 hs hocc
    have hreg : keyRegistered (mkSearchService recipes cfg shuffle).keyword_index
        (pyLower kw) r.name := by
      apply built_keyword_registered recipes cfg shuffle hkr
      · rw [pyLower_length]
        exact h3
      · exact pyStrip_pyLower_ne_nil hs
      · obtain ⟨i, h1, h2⟩ := hocc
        exact ⟨i, by rwa [pyLower_length], by rwa [pyLower_length]⟩
    have hmn := mem_matchedNamesOf hreg
    refine ⟨hmn, ?_⟩
    show r ∈ sortByRelevance (pyLower kw)
      (resolveNames (mkSearchService recipes cfg shuffle).recipes
        (matchedNamesOf (mkSearchService recipes cfg shuffle).keyword_index (pyLower kw)))
    apply mem_sortByRelevance
    apply mem_resolveNames hmn
    rw [mkSearchService_recipes]
    exact hget
  · intro recipes cfg shuffle kw mr hlong
    have hb := built_keyword_keys_bound recipes cfg shuffle
    have hm : matchedNamesOf (mkSearchService recipes cfg shuffle).keyword_index
        (pyLower kw) = [] :=
      matchedNamesOf_nil_of_long hb (by rw [pyLower_length]; exact hlong)
    have hsm : searchMatches (mkSearchService recipes cfg shuffle) kw = [] := by
      show sortByRelevance (pyLower kw)
        (resolveNames (mkSearchService recipes cfg shuffle).recipes
          (matchedNamesOf (mkSearchService recipes cfg shuffle).keyword_index
            (pyLower kw))) = []
      rw [hm]
      rfl
    refine ⟨hsm, ?_, ?_⟩ <;>
    · by_cases hbk : pyStrip kw = [] <;> simp [search_by_keyword, hbk, hsm]

theorem claim_C2_witness :
    (rEgg.name ∈ matchedNamesOf svcEgg.keyword_index (pyLower (str "egg")) ∧
     rEgg ∈ searchMatches svcEgg (str "egg")) ∧
    (searchMatches svcAbcd (str "abcd") = [] ∧
     (search_by_keyword svcAbcd (str "abcd") none).recipes = [] ∧
     (search_by_keyword svcAbcd (str "abcd") none).total_count = 0) :=
  ⟨claim_C2_keyword_matching.1 [(str "egg", rEgg)] {} id (str "egg") rEgg (str "egg")
     (by decide) (by decide) (by decide) (by decide)
     ⟨0, by decide, by decide⟩,
   claim_C2_keyword_matching.2 [(str "abcd", rAbcd)] {} id (str "abcd") none (by decide)⟩

/-! ### Claim C9: exact lookup through the name index -/

theorem pyCharLower_idem (c : Nat) : pyCharLower (pyCharLower c) = pyCharLower c := by
  unfold pyCharLower
  by_cases h : 65 ≤ c ∧ c ≤ 90
  · rw [if_pos h]
    have h2 : ¬ (65 ≤ c + 32 ∧ c + 32 ≤ 90) := by omega
    rw [if_neg h2]
  · rw [if_neg h, if_neg h]

theorem pyLower_idem (s : PyStr) : pyLower (pyLower s) = pyLower s := by
  unfold pyLower
  rw [List.map_map]
  exact List.map_congr_left (fun c _ => pyCharLower_idem c)

theorem foldl_buildStep_name_index (l : Dict Recipe) :
    ∀ s : RecipeSearchService,
      (l.foldl buildStep s).name_index = l.foldl nameStep s.name_index := by
  induction l with
  | nil => exact fun s => rfl
  | cons kv rest ih =>
    intro s
    rw [List.foldl_cons, List.foldl_cons, ih]
    rfl

theorem buildRandomPools_name_index (shuffle : List Recipe → List Recipe)
    (s : RecipeSearchService) : (buildRandomPools shuffle s).name_index = s.name_index := rfl

theorem nameStep_self (d : Dict Recipe) (kv : PyStr × Recipe) :
    dictGet (nameStep d kv) kv.2.name = some kv.2 ∧
    dictGet (nameStep d kv) (pyLower kv.2.name) = some kv.2 := by
  refine ⟨?_, dictGet_set_self _ _ _⟩
  by_cases h : pyLower kv.2.name = kv.2.name
  · rw [nameStep, h]
    exact dictGet_set_self _ _ _
  · rw [nameStep, dictGet_set_ne _ _ _ (fun hh => h hh.symm)]
    exact dictGet_set_self _ _ _

theorem nfold_no_writer (q : PyStr) :
    ∀ (l : List (PyStr × Recipe)),
      (∀ kv ∈ l, kv.2.name ≠ q ∧ pyLower kv.2.name ≠ q) →
      ∀ d : Dict Recipe, dictGet (l.foldl nameStep d) q = dictGet d q := by
  intro l
  induction l with
  | nil => exact fun _ d => rfl
  | cons kv rest ih =>
    intro h d
    rw [List.foldl_cons, ih (fun kv' h' => h kv' (List.mem_cons_of_mem _ h')) _]
    obtain ⟨h1, h2⟩ := h kv (by simp)
    rw [nameStep, dictGet_set_ne _ _ _ (fun hh => h2 hh.symm),
      dictGet_set_ne _ _ _ (fun hh => h1 hh.symm)]

/-- In a built index without lowercase collisions, both the exact and the
lowercased name of every record resolve to that record: later records never
overwrite either of its two index entries. -/
theorem built_name_index_lookup (recipes : Dict Recipe) (cfg : RecipeConfig)
    (shuffle : List Recipe → List Recipe)
    (Hkeys : (recipes.map Prod.fst).Nodup)
    (Hkv : ∀ p ∈ recipes, p.1 = p.2.name)
    (Hlow : (recipes.map (fun p => pyLower p.2.name)).Nodup)
    {k : PyStr} {r : Recipe} (hmem : (k, r) ∈ recipes) :
    dictGet (mkSearchService recipes cfg shuffle).name_index r.name = some r ∧
    dictGet (mkSearchService recipes cfg shuffle).name_index (pyLower r.name) = some r := by
  have hr : ¬ recipes = [] := by
    intro h
    rw [h] at hmem
    simp at hmem
  rw [mkSearchService, buildIndexes_foldl shuffle _ (by simpa using hr),
    buildRandomPools_name_index, foldl_buildStep_name_index]
  obtain ⟨l₁, l₂, rfl⟩ := List.append_of_mem hmem
  -- distinctness facts for the suffix l₂
  have hklow : ∀ kv ∈ l₂, pyLower kv.2.name ≠ pyLower r.name := by
    have h1 : ((l₁ ++ (k, r) :: l₂).map (fun p => pyLower p.2.name)).Nodup := Hlow
    rw [List.map_append, List.map_cons] at h1
    have h2 := (List.nodup_append.mp h1).2.1
    have h3 := (List.nodup_cons.mp h2).1
    intro kv hkv heq
    exact h3 (heq ▸ List.mem_map_of_mem _ hkv)
  have hkname : ∀ kv ∈ l₂, kv.2.name ≠ r.name := by
    have h1 : ((l₁ ++ (k, r) :: l₂).map Prod.fst).Nodup := Hkeys
    rw [List.map_append, List.map_cons] at h1
    have h2 := (List.nodup_append.mp h1).2.1
    have h3 := (List.nodup_cons.mp h2).1
    intro kv hkv heq
    have hk1 : kv.1 = kv.2.name := Hkv kv (by simp [hkv])
    have hk2 : k = r.name := Hkv (k, r) (by simp)
    apply h3
    have hkk : kv.1 = k := by rw [hk1, heq, hk2]
    have hmem2 : kv.1 ∈ l₂.map Prod.fst := List.mem_map_of_mem _ hkv
    rwa [hkk] at hmem2
  have hw1 : ∀ kv ∈ l₂, kv.2.name ≠ r.name ∧ pyLower kv.2.name ≠ r.name := by
    intro kv hkv
    refine ⟨hkname kv hkv, ?_⟩
    intro heq
    apply hklow kv hkv
    calc pyLower kv.2.name = pyLower (pyLower kv.2.name) := (pyLower_idem _).symm
      _ = pyLower r.name := congrArg pyLower heq
  have hw2 : ∀ kv ∈ l₂, kv.2.name ≠ pyLower r.name ∧
      pyLower kv.2.name ≠ pyLower r.name := by
    intro kv hkv
    refine ⟨?_, hklow kv hkv⟩
    intro heq
    apply hklow kv hkv
    rw [heq, pyLower_idem]
  rw [List.foldl_append, List.foldl_cons]
  constructor
  · rw [nfold_no_writer r.name l₂ hw1]
    exact (nameStep_self _ _).1
  · rw [nfold_no_writer (pyLower r.name) l₂ hw2]
    exact (nameStep_self _ _).2

/-- Claim C9 is false on the code for indices containing distinct records
whose names differ only in letter case: building `"Abc"` then `"abc"`, the
second record's exact entry overwrites the first record's lowercase entry, so
`FindExact("Abc".lower())` returns the `"abc"` record rather than the `"Abc"`
record the claim requires. -/
theorem claim_C9_counterexample :
    find_by_name svcCase rUp.name = some rUp ∧
    find_by_name svcCase (pyLower rUp.name) = some rLo ∧
    rLo ≠ rUp := by
  refine ⟨by decide, by decide, by decide⟩

/-- Claim C9 amended: for every record in the built set, `FindExact` on the
record's exact name and on its lowercased name both return that record,
provided no two distinct records' names coincide after lowercasing; when they
do, a later record overwrites the earlier record's entry and the lookup
returns the later one.  (Blank-free names are the `Recipe` model invariant.) -/
theorem claim_C9_exact_lookup (recipes : Dict Recipe) (cfg : RecipeConfig)
    (shuffle : List Recipe → List Recipe) (svc : RecipeSearchService)
    (hsvc : svc = mkSearchService recipes cfg shuffle)
    (Hkeys : (recipes.map Prod.fst).Nodup)
    (Hkv : ∀ p ∈ recipes, p.1 = p.2.name)
    (Hlow : (recipes.map (fun p => pyLower p.2.name)).Nodup)
    (Hname : ∀ p ∈ recipes, pyStrip p.2.name ≠ [])
    (k : PyStr) (r : Recipe) (hmem : (k, r) ∈ recipes) :
    find_by_name svc r.name = some r ∧ find_by_name svc (pyLower r.name) = some r := by
  subst hsvc
  obtain ⟨hx, hl⟩ := built_name_index_lookup recipes cfg shuffle Hkeys Hkv Hlow hmem
  have hblank : pyStrip r.name ≠ [] := Hname (k, r) hmem
  constructor
  · rw [find_by_name, if_neg hblank, hx]
  · rw [find_by_name, if_neg (pyStrip_pyLower_ne_nil hblank), hl]

theorem claim_C9_witness :
    (find_by_name svcTwo rEgg.name = some rEgg ∧
     find_by_name svcTwo (pyLower rEgg.name) = some rEgg) :=
  claim_C9_exact_lookup [(str "egg", rEgg), (str "apple pie", rApple)] {} id svcTwo
    rfl (by decide) (by decide) (by decide) (by decide) (str "egg") rEgg (by decide)

/-! ### Claim C8: queries before start-up fail fast with a dedicated error -/

/-- Claim C8: every query operation — keyword search, random-single,
random-batch, exact-name lookup and category listing — issued before the
first successful start-up returns the dedicated `RuntimeError` of
`_ensure_initialized` instead of a normal (possibly empty) answer, so callers
can tell "not ready" from "ready and empty". -/
theorem claim_C8_not_ready_fails_fast (svc : RecipeService) (h : svc.is_ready = false)
    (now : Nat) (keyword dish : PyStr) (sample : List Recipe → Nat → List Recipe)
    (category : Option PyStr) (count : Nat) :
    svc.search_recipes now keyword
      = Except.error (PyError.runtimeError (str "服务未初始化，请先调用 initialize() 方法")) ∧
    svc.get_random_recipe sample now category
      = Except.error (PyError.runtimeError (str "服务未初始化，请先调用 initialize() 方法")) ∧
    svc.get_recipe_url dish
      = Except.error (PyError.runtimeError (str "服务未初始化，请先调用 initialize() 方法")) ∧
    svc.get_categories_info now
      = Except.error (PyError.runtimeError (str "服务未初始化，请先调用 initialize() 方法")) ∧
    svc.get_random_recipes_batch sample now count
      = Except.error (PyError.runtimeError (str "服务未初始化，请先调用 initialize() 方法")) := by
  have he : ensure_ready svc
      = Except.error (PyError.runtimeError (str "服务未初始化，请先调用 initialize() 方法")) := by
    rw [ensure_ready, h]
    rfl
  refine ⟨?_, ?_, ?_, ?_, ?_⟩
  · rw [RecipeService.search_recipes, he]
  · rw [RecipeService.get_random_recipe, he]
  · rw [RecipeService.get_recipe_url, he]
  · rw [RecipeService.get_categories_info, he]
  · rw [RecipeService.get_random_recipes_batch, he]

theorem claim_C8_witness :
    rsFresh.search_recipes 0 (str "egg")
      = Except.error (PyError.runtimeError (str "服务未初始化，请先调用 initialize() 方法")) ∧
    rsFresh.get_random_recipe (fun l n => l.take n) 0 none
      = Except.error (PyError.runtimeError (str "服务未初始化，请先调用 initialize() 方法")) ∧
    rsFresh.get_recipe_url (str "egg")
      = Except.error (PyError.runtimeError (str "服务未初始化，请先调用 initialize() 方法")) ∧
    rsFresh.get_categories_info 0
      = Except.error (PyError.runtimeError (str "服务未初始化，请先调用 initialize() 方法")) ∧
    rsFresh.get_random_recipes_batch (fun l n => l.take n) 0 3
      = Except.error (PyError.runtimeError (str "服务未初始化，请先调用 initialize() 方法")) :=
  claim_C8_not_ready_fails_fast rsFresh rfl 0 (str "egg") (str "egg")
    (fun l n => l.take n) none 3

end Cook
